import Mathlib

/-!
# KSTool — shallow embedding and verification

A shallow embedding, in Lean 4, of the job-state pipeline and the
configuration templating engine of KSTool (a terminal dashboard for
Kubernetes batch jobs), together with theorems settling the specification
claims about it.

The repository contains several historical variants of the same program.
The two relevant ones are embedded under separate namespaces:
* `V100` — the variant in `main.go` (VERSION "1.0.0"): pod-based GPU
  summary, prefix-based delete check;
* `V113` — the latest variant (VERSION "1.1.3"): job-spec-based GPU
  summary, label-based ownership checks, `CommandHandler` dispatch.
Functions that are byte-identical across the two variants (`deriveStatus`,
`completions`, `fmtDuration`, `age`, `parseDuration`, `parseAge`,
`getGPUTypePriority`, `sortJobs`, `filterJobsByStatus`) are defined once,
at top level.

Machine integers are modelled as `Int`/`Nat` (the quantities involved —
pod counts, minutes — never approach overflow). Times are modelled in
whole minutes since an arbitrary epoch. Fallible operations return
`Except`/`Option`. External collaborators are modelled by their documented
behaviour: the Kubernetes client is a data source passed in as arguments,
`envsubst` (gettext) is a pure substitution function, and Go's
`sort.Slice` is the deterministic pdqsort used by Go ≥ 1.19 (transcribed
below).
-/

/-! ## Basic string helpers (models of Go `strings` functions) -/

/-- Model of `strings.HasPrefix` on character lists. -/
def listHasPrefix : List Char → List Char → Bool
  | [], _ => true
  | _ :: _, [] => false
  | p :: ps, c :: cs => p == c && listHasPrefix ps cs

/-- Model of `strings.Contains` on character lists (substring search). -/
def listContainsSub (hay needle : List Char) : Bool :=
  match hay with
  | [] => listHasPrefix needle []
  | _ :: rest => listHasPrefix needle hay || listContainsSub rest needle

/-- Model of `strings.Contains sub s`. -/
def strContains (s sub : String) : Bool :=
  listContainsSub s.toList sub.toList

/-- Model of `strings.HasPrefix`. -/
def strHasPrefix (s pre : String) : Bool :=
  listHasPrefix pre.toList s.toList

/-! ## Kubernetes data model (the fields the program reads) -/

/-- `corev1.ResourceList` restricted to integer quantities: a map from
resource name to quantity; a missing key reads as the zero quantity
(Go map zero-value semantics). -/
def ResourceList := List (String × Int)

/-- Reading `limits[name]` from a Go map: absent keys give the zero
`Quantity`. -/
def resourceLookup (l : ResourceList) (name : String) : Int :=
  match l.find? (fun p => p.1 == name) with
  | some p => p.2
  | none => 0

/-- `Quantity.IsZero`. -/
def quantityIsZero (q : Int) : Bool := q == 0

/-- A container: the program only reads `Resources.Limits`. -/
structure K8sContainer where
  limits : ResourceList

/-- A pod spec/status as read by the program. -/
structure K8sPod where
  containers : List K8sContainer
  nodeSelector : List (String × String)
  /-- controller owner reference, as `(kind, name)`, if any -/
  controllerOwner : Option (String × String)

/-- `batchv1.Job` as read by the program. Times are whole minutes. -/
structure K8sJob where
  name : String
  labels : List (String × String)
  specCompletions : Option Int
  templateContainers : List K8sContainer
  templateNodeSelector : List (String × String)
  statusActive : Int
  statusSucceeded : Int
  statusFailed : Int
  startTime : Option Int
  completionTime : Option Int
  creationTimestamp : Int

/-- The UI row record (`type Job struct` in both variants). -/
structure Job where
  Name : String
  Status : String
  Completions : String
  Duration : String
  Age : String
  Pods : String
  GPUCount : Int
  GPUInfo : String
deriving DecidableEq, Repr, Inhabited

def EMOJI_WAITING : String := "⏳"

def USER_LABEL : String := "eidf/user"

/-! ## Shared pure helpers (identical in `main.go` and the 1.1.3 variant) -/

/-- `deriveStatus`: Running / Complete / Failed / Pending from the raw
status counters. -/
def deriveStatus (j : K8sJob) : String :=
  if j.statusActive > 0 then "Running"
  else if j.statusSucceeded > 0 then "Complete"
  else if j.statusFailed > 0 then "Failed"
  else "Pending"

/-- `completions`: "succeeded/target", target defaulting to 1 when the
spec declares none. -/
def completions (j : K8sJob) : String :=
  match j.specCompletions with
  | none => s!"{j.statusSucceeded}/1"
  | some c => s!"{j.statusSucceeded}/{c}"

/-- The decimal digit characters. -/
def digitChar : Nat → Char
  | 0 => '0' | 1 => '1' | 2 => '2' | 3 => '3' | 4 => '4'
  | 5 => '5' | 6 => '6' | 7 => '7' | 8 => '8' | 9 => '9'
  | _ => '*'

/-- Big-endian decimal digits of `n` (fuel-based so that it reduces
definitionally; `fuel > log10 n` suffices and the callers pass `n+1`). -/
def digitsAux : Nat → Nat → List Char
  | 0, _ => []
  | fuel+1, n => if n < 10 then [digitChar n] else digitsAux fuel (n / 10) ++ [digitChar (n % 10)]

/-- Decimal rendering of a natural number, the model of `%d` for the
non-negative values the program produces. -/
def natRepr (n : Nat) : String :=
  String.mk (digitsAux (n+1) n)

/-- `%d` for `Int` (durations are non-negative in every reachable call,
but the model is total). -/
def intRepr (i : Int) : String :=
  if i < 0 then "-" ++ natRepr i.natAbs else natRepr i.toNat

/-- The `{d}d{h}h{m}m` rendering shared by `fmtDuration` and `age`,
taking the elapsed time in whole minutes. `int(duration.Hours())/...`
truncates toward zero; elapsed times are taken non-negative here and the
quotients are natural-number divisions. -/
def renderDHM (elapsedMinutes : Nat) : String :=
  let days := elapsedMinutes / 60 / 24
  let hours := (elapsedMinutes / 60) % 24
  let minutes := elapsedMinutes % 60
  if days > 0 then
    natRepr days ++ "d" ++ natRepr hours ++ "h" ++ natRepr minutes ++ "m"
  else if hours > 0 then
    natRepr hours ++ "h" ++ natRepr minutes ++ "m"
  else
    natRepr minutes ++ "m"

/-- `fmtDuration(start, end)`: "‑" when no start time is recorded, else
the `{d}d{h}h{m}m` rendering of `until − start` where `until` is the
completion time if present and `now` otherwise. -/
def fmtDuration (start endTime : Option Int) (now : Int) : String :=
  match start with
  | none => "‑"
  | some s =>
    let until_ := match endTime with
      | some e => e
      | none => now
    renderDHM (until_ - s).toNat

/-- `age(t)` = `{d}d{h}h{m}m` of `now − t`. -/
def age (t now : Int) : String :=
  renderDHM (now - t).toNat

/-! ## The two `summarizeGPU` variants -/

namespace V100

/-- `summarizeGPU` of `main.go` (v1.0.0): inspects the first pod's first
container resources and node labels. Indexing `pod.Spec.Containers[0]`
panics when the pod has no containers; the panic is modelled as `none`. -/
def summarizeGPU (pods : List K8sPod) : Option String :=
  match pods with
  | [] => some (EMOJI_WAITING ++ " No Pod")
  | pod :: _ =>
    match pod.containers with
    | [] => none
    | c :: _ =>
      let gpuCount := resourceLookup c.limits "nvidia.com/gpu"
      if quantityIsZero gpuCount then some "No GPU"
      else
        let gpuModel := match pod.nodeSelector.find? (fun p => p.1 == "nvidia.com/gpu.product") with
          | some p => p.2
          | none => ""
        let modelType :=
          if strContains gpuModel "A100" then "A100"
          else if strContains gpuModel "H100" then "H100"
          else if strContains gpuModel "H200" then "H200"
          else ""
        let memory :=
          if strContains gpuModel "40GB" || strContains gpuModel "40G" then "40G"
          else if strContains gpuModel "80GB" || strContains gpuModel "80G" then "80G"
          else ""
        if modelType == "" then some "Unknown"
        else if memory == "" then some modelType
        else some (modelType ++ "-" ++ memory)

end V100

namespace V113

/-- `summarizeGPU` of the v1.1.3 variant: inspects the job's template
spec (node selector and `Status.Active`), not the pods. -/
def summarizeGPU (j : K8sJob) : String :=
  if j.templateContainers.isEmpty then EMOJI_WAITING ++ " No Container"
  else
    let gpuModel := match j.templateNodeSelector.find? (fun p => p.1 == "nvidia.com/gpu.product") with
      | some p => p.2
      | none => ""
    let modelType :=
      if strContains gpuModel "A100" then "A100"
      else if strContains gpuModel "H100" then "H100"
      else if strContains gpuModel "H200" then "H200"
      else ""
    let memory :=
      if strContains gpuModel "40GB" || strContains gpuModel "40G" then "40G"
      else if strContains gpuModel "80GB" || strContains gpuModel "80G" then "80G"
      else ""
    if modelType == "" then "Unknown"
    else
      let isRunning := j.statusActive > 0
      if !isRunning then
        if memory == "" then EMOJI_WAITING ++ " " ++ modelType
        else EMOJI_WAITING ++ " " ++ modelType ++ "-" ++ memory
      else
        if memory == "" then modelType
        else modelType ++ "-" ++ memory

end V113

/-! ## Decimal rendering and scanning (models of `fmt.Sprintf "%d"` and
`fmt.Sscanf "%d"`) -/

/-- Numeric value of a digit character. -/
def digitVal (c : Char) : Nat := c.toNat - '0'.toNat

/-- Split a leading run of decimal digits off a character list. -/
def spanDigits : List Char → List Char × List Char
  | [] => ([], [])
  | c :: cs =>
    if c.isDigit then
      let (ds, rest) := spanDigits cs
      (c :: ds, rest)
    else ([], c :: cs)

/-- Value of a digit run. -/
def digitsToNat (ds : List Char) : Nat := ds.foldl (fun a c => a * 10 + digitVal c) 0

/-- Model of one `%d` conversion of `fmt.Sscanf`: an optional sign
followed by at least one digit; `none` when the input has no number
(in which case `Sscanf` stops and the remaining operands keep their
zero values). -/
def scanInt (cs : List Char) : Option (Int × List Char) :=
  let (sign, cs') :=
    match cs with
    | c :: rest => if c = '-' then ((-1 : Int), rest) else if c = '+' then ((1 : Int), rest) else ((1 : Int), cs)
    | [] => ((1 : Int), ([] : List Char))
  match spanDigits cs' with
  | ([], _) => none
  | (ds, rest) => some (sign * (digitsToNat ds : Int), rest)

/-- `fmt.Sscanf(s, "%dd%dh%dm", &days, &hours, &minutes)`: operands
already matched keep their values when a later verb or literal fails. -/
def sscanfDHM (cs : List Char) : Int × Int × Int :=
  match scanInt cs with
  | none => (0, 0, 0)
  | some (d, r1) =>
    match r1 with
    | 'd' :: r2 =>
      (match scanInt r2 with
      | none => (d, 0, 0)
      | some (h, r3) =>
        match r3 with
        | 'h' :: r4 =>
          (match scanInt r4 with
          | none => (d, h, 0)
          | some (m, _) => (d, h, m))
        | _ => (d, h, 0))
    | _ => (d, 0, 0)

/-- `fmt.Sscanf(s, "%dh%dm", &hours, &minutes)`. -/
def sscanfHM (cs : List Char) : Int × Int :=
  match scanInt cs with
  | none => (0, 0)
  | some (h, r1) =>
    match r1 with
    | 'h' :: r2 =>
      (match scanInt r2 with
      | none => (h, 0)
      | some (m, _) => (h, m))
    | _ => (h, 0)

/-- `fmt.Sscanf(s, "%dm", &minutes)`. -/
def sscanfM (cs : List Char) : Int :=
  match scanInt cs with
  | none => 0
  | some (m, _) => m

/-- `parseDuration`: the sentinel "‑" parses to 0; otherwise the string is
parsed as `%dd%dh%dm`, `%dh%dm` or `%dm` depending on which unit letters
occur, and the result is total minutes. -/
def parseDuration (duration : String) : Int :=
  if duration = "‑" then 0
  else
    let cs := duration.toList
    if strContains duration "d" then
      let (days, hours, minutes) := sscanfDHM cs
      days * 24 * 60 + hours * 60 + minutes
    else if strContains duration "h" then
      let (hours, minutes) := sscanfHM cs
      hours * 60 + minutes
    else
      sscanfM cs

/-- `parseAge`: identical to `parseDuration` except that it has no
sentinel case. -/
def parseAge (ageStr : String) : Int :=
  let cs := ageStr.toList
  if strContains ageStr "d" then
    let (days, hours, minutes) := sscanfDHM cs
    days * 24 * 60 + hours * 60 + minutes
  else if strContains ageStr "h" then
    let (hours, minutes) := sscanfHM cs
    hours * 60 + minutes
  else
    sscanfM cs

/-- `getGPUTypePriority`: base priority from the family substring,
memory priority from the memory-class substring. -/
def getGPUTypePriority (gpuType : String) : Int :=
  let basePriority : Int :=
    if strContains gpuType "H200" then 300
    else if strContains gpuType "H100" then 200
    else if strContains gpuType "A100" then 100
    else 0
  let memoryPriority : Int :=
    if strContains gpuType "80G" || strContains gpuType "80GB" then 2
    else if strContains gpuType "40G" || strContains gpuType "40GB" then 1
    else 0
  basePriority + memoryPriority

/-- `filterJobsByStatus`. -/
def filterJobsByStatus (jobs : List Job) (status : String) : List Job :=
  jobs.filter (fun job => job.Status == status)

/-! ## Snapshot builder (`getJobs`) — both variants

The Kubernetes client is an external collaborator; its two list calls are
passed in as `Except` results. -/

/-- `metav1.GetControllerOf(&p) != nil && owner.Kind == "Job" && owner.Name == jobName`:
the pods grouped under a job (grouping by map+append preserves pod order,
which the filter reproduces). -/
def podsOfJob (podList : List K8sPod) (jobName : String) : List K8sPod :=
  podList.filter (fun p =>
    match p.controllerOwner with
    | some (kind, name) => kind == "Job" && name == jobName
    | none => false)

namespace V113

/-- GPU count of the v1.1.3 variant: first template container's
`nvidia.com/gpu` limit, 0 when there is no container. -/
def jobGPUCount (j : K8sJob) : Int :=
  match j.templateContainers with
  | [] => 0
  | c :: _ =>
    let gpuLimit := resourceLookup c.limits "nvidia.com/gpu"
    if !quantityIsZero gpuLimit then gpuLimit else 0

/-- One row of the snapshot. -/
def buildRow (podList : List K8sPod) (now : Int) (j : K8sJob) : Job :=
  let pods := podsOfJob podList j.name
  { Name := j.name
    Status := deriveStatus j
    Completions := completions j
    Duration := fmtDuration j.startTime j.completionTime now
    Age := age j.creationTimestamp now
    Pods := natRepr pods.length ++ " pods"
    GPUCount := jobGPUCount j
    GPUInfo := summarizeGPU j }

/-- `getJobs` (v1.1.3): list jobs, list pods, group, summarize. Both list
calls are results of the external client; the first failure aborts the
whole snapshot. -/
def getJobs (jobsRes : Except String (List K8sJob))
    (podsRes : Except String (List K8sPod)) (now : Int) :
    Except String (List Job) :=
  match jobsRes with
  | .error e => .error e
  | .ok jobList =>
    match podsRes with
    | .error e => .error e
    | .ok podList => .ok (jobList.map (buildRow podList now))

end V113

namespace V100

/-- GPU count of the v1.0.0 variant: sum over the job's pods of the first
container's `nvidia.com/gpu` limit (pods without containers are skipped
by the `len > 0` guard). -/
def podsGPUCount (pods : List K8sPod) : Int :=
  pods.foldl (fun acc pod =>
    match pod.containers with
    | [] => acc
    | c :: _ =>
      let gpuLimit := resourceLookup c.limits "nvidia.com/gpu"
      if !quantityIsZero gpuLimit then acc + gpuLimit else acc) 0

/-- One row of the snapshot; `none` models the `Containers[0]` panic
inside `summarizeGPU`. -/
def buildRow (podList : List K8sPod) (now : Int) (j : K8sJob) : Option Job :=
  let pods := podsOfJob podList j.name
  match summarizeGPU pods with
  | none => none
  | some gpuInfo => some
    { Name := j.name
      Status := deriveStatus j
      Completions := completions j
      Duration := fmtDuration j.startTime j.completionTime now
      Age := age j.creationTimestamp now
      Pods := natRepr pods.length ++ " pods"
      GPUCount := podsGPUCount pods
      GPUInfo := gpuInfo }

/-- `getJobs` (v1.0.0). The inner `Option` models a runtime panic while
building rows. -/
def getJobs (jobsRes : Except String (List K8sJob))
    (podsRes : Except String (List K8sPod)) (now : Int) :
    Except String (Option (List Job)) :=
  match jobsRes with
  | .error e => .error e
  | .ok jobList =>
    match podsRes with
    | .error e => .error e
    | .ok podList => .ok (jobList.mapM (buildRow podList now))

end V100

/-! ## Go `sort.Slice` (pdqsort, Go ≥ 1.19)

`sortJobs` delegates all ordering to `sort.Slice`, so the sort claims are
decided by Go's library sort. This section transcribes
`src/sort/zsortfunc.go` (insertion sort, heap sort, pdqsort with
partitioning, pattern breaking and partial insertion sort) into fuel-based
structural recursion over `Array`; the fuel amounts are chosen large
enough never to truncate a run. `uint64` arithmetic of the xorshift
generator is `Nat` arithmetic mod `2^64`. -/

namespace GoSort

variable {α : Type} [Inhabited α]

/-- `sortedHint` (`unknownHint` / `increasingHint` / `decreasingHint`). -/
inductive Hint where
  | unknown
  | increasing
  | decreasing
deriving DecidableEq

/-- Inner loop of `insertionSort_func`: bubble `arr[j]` down while it is
less than its left neighbour. -/
def insertionSortInner (less : α → α → Bool) : Nat → Array α → Nat → Nat → Array α
  | 0, arr, _, _ => arr
  | fuel+1, arr, j, a =>
    if j > a && less (arr.get! j) (arr.get! (j-1)) then
      insertionSortInner less fuel (arr.swap! j (j-1)) (j-1) a
    else arr

/-- Outer loop of `insertionSort_func`: `i` from `a+1` to `b-1`. -/
def insertionSortOuter (less : α → α → Bool) : Nat → Array α → Nat → Nat → Nat → Array α
  | 0, arr, _, _, _ => arr
  | fuel+1, arr, i, a, b =>
    if i < b then
      insertionSortOuter less fuel (insertionSortInner less i arr i a) (i+1) a b
    else arr

/-- `insertionSort_func(data, a, b)`. -/
def insertionSort (less : α → α → Bool) (arr : Array α) (a b : Nat) : Array α :=
  insertionSortOuter less (b - a) arr (a+1) a b

/-- `siftDown_func(data, root, hi, first)`. -/
def siftDown (less : α → α → Bool) : Nat → Array α → Nat → Nat → Nat → Array α
  | 0, arr, _, _, _ => arr
  | fuel+1, arr, root, hi, first =>
    let child := 2*root + 1
    if child ≥ hi then arr
    else
      let child := if child + 1 < hi && less (arr.get! (first+child)) (arr.get! (first+child+1)) then child + 1 else child
      if !(less (arr.get! (first+root)) (arr.get! (first+child))) then arr
      else siftDown less fuel (arr.swap! (first+root) (first+child)) child hi first

/-- Heap-construction phase of `heapSort_func`: `i` from `(hi-1)/2` down
to `0`; the argument counts the remaining values of `i` plus one. -/
def heapBuild (less : α → α → Bool) (hi first : Nat) : Nat → Array α → Array α
  | 0, arr => arr
  | k+1, arr => heapBuild less hi first k (siftDown less hi arr k hi first)

/-- Extraction phase of `heapSort_func`: `i` from `hi-1` down to `0`. -/
def heapSortLoop (less : α → α → Bool) (first : Nat) : Nat → Array α → Array α
  | 0, arr => arr
  | k+1, arr =>
    heapSortLoop less first k (siftDown less (k+1) (arr.swap! first (first+k)) 0 k first)

/-- `heapSort_func(data, a, b)`. -/
def heapSort (less : α → α → Bool) (arr : Array α) (a b : Nat) : Array α :=
  let first := a
  let hi := b - a
  let arr := heapBuild less hi first ((hi - 1) / 2 + 1) arr
  heapSortLoop less first hi arr

/-- `reverseRange_func`. -/
def reverseRangeLoop : Nat → Array α → Nat → Nat → Array α
  | 0, arr, _, _ => arr
  | fuel+1, arr, i, j => if i < j then reverseRangeLoop fuel (arr.swap! i j) (i+1) (j-1) else arr

/-- `reverseRange_func(data, a, b)`. -/
def reverseRange (arr : Array α) (a b : Nat) : Array α :=
  reverseRangeLoop (b - a) arr a (b - 1)

/-- `order2_func`: order two indices by value, counting a swap. -/
def order2 (less : α → α → Bool) (arr : Array α) (a b swaps : Nat) : Nat × Nat × Nat :=
  if less (arr.get! b) (arr.get! a) then (b, a, swaps + 1) else (a, b, swaps)

/-- `median_func`: index of the median value of three indices. -/
def median (less : α → α → Bool) (arr : Array α) (a b c swaps : Nat) : Nat × Nat :=
  let (a1, b1, s1) := order2 less arr a b swaps
  let (b2, _, s2) := order2 less arr b1 c s1
  let (_, b3, s3) := order2 less arr a1 b2 s2
  (b3, s3)

/-- `medianAdjacent_func`: median of `a-1, a, a+1`. -/
def medianAdjacent (less : α → α → Bool) (arr : Array α) (a swaps : Nat) : Nat × Nat :=
  median less arr (a-1) a (a+1) swaps

/-- `choosePivot_func(data, a, b)`; `shortestNinther = 50`,
`maxSwaps = 12`. -/
def choosePivot (less : α → α → Bool) (arr : Array α) (a b : Nat) : Nat × Hint :=
  let l := b - a
  let i0 := a + l/4*1
  let j0 := a + l/4*2
  let k0 := a + l/4*3
  if l ≥ 8 then
    let (i1, j1, k1, s1) :=
      if l ≥ 50 then
        let (i1, si) := medianAdjacent less arr i0 0
        let (j1, sj) := medianAdjacent less arr j0 si
        let (k1, sk) := medianAdjacent less arr k0 sj
        (i1, j1, k1, sk)
      else (i0, j0, k0, 0)
    let (j2, s2) := median less arr i1 j1 k1 s1
    let hint := if s2 = 0 then Hint.increasing
      else if s2 = 12 then Hint.decreasing
      else Hint.unknown
    (j2, hint)
  else (j0, Hint.increasing)

/-- Scan of `partialInsertionSort_func`: advance `i` while the pair
`(i-1, i)` is in order. -/
def pisScan (less : α → α → Bool) (arr : Array α) (b : Nat) : Nat → Nat → Nat
  | 0, i => i
  | fuel+1, i =>
    if i < b && !(less (arr.get! i) (arr.get! (i-1))) then pisScan less arr b fuel (i+1) else i

/-- Left-shift loop of `partialInsertionSort_func` (`j` from `i-1` down,
stopping at `j = 0`). -/
def pisShiftLeft (less : α → α → Bool) : Nat → Array α → Nat → Array α
  | 0, arr, _ => arr
  | fuel+1, arr, j =>
    if j ≥ 1 then
      if !(less (arr.get! j) (arr.get! (j-1))) then arr
      else pisShiftLeft less fuel (arr.swap! j (j-1)) (j-1)
    else arr

/-- Right-shift loop of `partialInsertionSort_func` (`j` from `i+1` up to
`b-1`). -/
def pisShiftRight (less : α → α → Bool) (b : Nat) : Nat → Array α → Nat → Array α
  | 0, arr, _ => arr
  | fuel+1, arr, j =>
    if j < b then
      if !(less (arr.get! j) (arr.get! (j-1))) then arr
      else pisShiftRight less b fuel (arr.swap! j (j-1)) (j+1)
    else arr

/-- Outer loop of `partialInsertionSort_func`; the fuel is `maxSteps = 5`
and exhausting it returns `false`. `shortestShifting = 50`. -/
def pisLoop (less : α → α → Bool) (a b : Nat) : Nat → Array α → Nat → Array α × Bool
  | 0, arr, _ => (arr, false)
  | steps+1, arr, i =>
    let i := pisScan less arr b b i
    if i = b then (arr, true)
    else if b - a < 50 then (arr, false)
    else
      let arr := arr.swap! i (i-1)
      let arr := if i - a ≥ 2 then pisShiftLeft less i arr (i-1) else arr
      let arr := if b - i ≥ 2 then pisShiftRight less b b arr (i+1) else arr
      pisLoop less a b steps arr i

/-- `partialInsertionSort_func(data, a, b)`. -/
def partialInsertionSort (less : α → α → Bool) (arr : Array α) (a b : Nat) : Array α × Bool :=
  pisLoop less a b 5 arr (a+1)

/-- `xorshift.Next` on `uint64`. -/
def xorshiftNext (r : Nat) : Nat :=
  let r := (r ^^^ (r <<< 13)) % 2^64
  let r := (r ^^^ (r >>> 7)) % 2^64
  (r ^^^ (r <<< 17)) % 2^64

/-- `bits.Len` (number of bits), fuel-based. -/
def bitsLenAux : Nat → Nat → Nat
  | 0, _ => 0
  | fuel+1, n => if n = 0 then 0 else bitsLenAux fuel (n / 2) + 1

/-- `bits.Len(uint(n))`. -/
def bitsLen (n : Nat) : Nat := bitsLenAux (n+1) n

/-- `nextPowerOfTwo(length) = 1 << bits.Len(uint(length))`. -/
def nextPowerOfTwo (length : Nat) : Nat := 2 ^ bitsLen length

/-- `breakPatterns_func(data, a, b)`: three pseudo-random swaps around the
midpoint (the three loop iterations are unrolled). -/
def breakPatterns (arr : Array α) (a b : Nat) : Array α :=
  let length := b - a
  if length ≥ 8 then
    let modulus := nextPowerOfTwo length
    let idx := a + (length/4)*2 - 1
    let step := fun (st : Array α × Nat) (i : Nat) =>
      let (arr, random) := st
      let random := xorshiftNext random
      let other := random &&& (modulus - 1)
      let other := if other ≥ length then other - length else other
      (arr.swap! (idx - 1 + i) (a + other), random)
    (step (step (step (arr, length) 0) 1) 2).1
  else arr

/-- First scan of `partition_func`: advance `i` while `arr[i] < pivot`. -/
def partScanI (less : α → α → Bool) (arr : Array α) (a : Nat) : Nat → Nat → Nat → Nat
  | 0, i, _ => i
  | fuel+1, i, j =>
    if i ≤ j && less (arr.get! i) (arr.get! a) then partScanI less arr a fuel (i+1) j else i

/-- Second scan of `partition_func`: retreat `j` while `arr[j] ≥ pivot`. -/
def partScanJ (less : α → α → Bool) (arr : Array α) (a : Nat) : Nat → Nat → Nat → Nat
  | 0, _, j => j
  | fuel+1, i, j =>
    if i ≤ j && !(less (arr.get! j) (arr.get! a)) then partScanJ less arr a fuel i (j-1) else j

/-- Main loop of `partition_func`. -/
def partitionLoop (less : α → α → Bool) (a b : Nat) : Nat → Array α → Nat → Nat → Array α × Nat
  | 0, arr, _, j => (arr, j)
  | fuel+1, arr, i, j =>
    let i := partScanI less arr a b i j
    let j := partScanJ less arr a b i j
    if i > j then (arr, j)
    else partitionLoop less a b fuel (arr.swap! i j) (i+1) (j-1)

/-- `partition_func(data, a, b, pivot)`: places the pivot value at `a`,
partitions, and reports `(array, newpivot, alreadyPartitioned)`. -/
def partition (less : α → α → Bool) (arr0 : Array α) (a b pivot : Nat) :
    Array α × Nat × Bool :=
  let arr := arr0.swap! a pivot
  let i := a + 1
  let j := b - 1
  let i := partScanI less arr a b i j
  let j := partScanJ less arr a b i j
  if i > j then (arr.swap! j a, j, true)
  else
    let pl := partitionLoop less a b b (arr.swap! i j) (i+1) (j-1)
    (pl.1.swap! pl.2 a, pl.2, false)

/-- First scan of `partitionEqual_func`. -/
def peScanI (less : α → α → Bool) (arr : Array α) (a : Nat) : Nat → Nat → Nat → Nat
  | 0, i, _ => i
  | fuel+1, i, j =>
    if i ≤ j && !(less (arr.get! a) (arr.get! i)) then peScanI less arr a fuel (i+1) j else i

/-- Second scan of `partitionEqual_func`. -/
def peScanJ (less : α → α → Bool) (arr : Array α) (a : Nat) : Nat → Nat → Nat → Nat
  | 0, _, j => j
  | fuel+1, i, j =>
    if i ≤ j && less (arr.get! a) (arr.get! j) then peScanJ less arr a fuel i (j-1) else j

/-- Main loop of `partitionEqual_func`. -/
def partitionEqualLoop (less : α → α → Bool) (a b : Nat) : Nat → Array α → Nat → Nat → Array α × Nat
  | 0, arr, i, _ => (arr, i)
  | fuel+1, arr, i, j =>
    let i := peScanI less arr a b i j
    let j := peScanJ less arr a b i j
    if i > j then (arr, i)
    else partitionEqualLoop less a b fuel (arr.swap! i j) (i+1) (j-1)

/-- `partitionEqual_func(data, a, b, pivot)`: skips elements equal to the
pivot, returning the new left bound. -/
def partitionEqual (less : α → α → Bool) (arr0 : Array α) (a b pivot : Nat) :
    Array α × Nat :=
  let arr := arr0.swap! a pivot
  partitionEqualLoop less a b b arr (a+1) (b-1)

/-- `pdqsort_func(data, a, b, limit)`; `maxInsertion = 12`. The `for`
loop is the tail call (`wasBalanced`/`wasPartitioned` are the loop-carried
locals, initially `true`). -/
def pdqsortLoop (less : α → α → Bool) : Nat → Array α → Nat → Nat → Nat → Bool → Bool → Array α
  | 0, arr, _, _, _, _, _ => arr
  | fuel+1, arr, a, b, limit, wasBalanced, wasPartitioned =>
    let length := b - a
    if length ≤ 12 then insertionSort less arr a b
    else if limit = 0 then heapSort less arr a b
    else
      let arr1 := if !wasBalanced then breakPatterns arr a b else arr
      let limit1 := if !wasBalanced then limit - 1 else limit
      let ph := choosePivot less arr1 a b
      let arr2 := if ph.2 = Hint.decreasing then reverseRange arr1 a b else arr1
      let pivot := if ph.2 = Hint.decreasing then (b - 1) - (ph.1 - a) else ph.1
      let hint := if ph.2 = Hint.decreasing then Hint.increasing else ph.2
      let pis :=
        if wasBalanced && wasPartitioned && hint = Hint.increasing then
          partialInsertionSort less arr2 a b
        else (arr2, false)
      if pis.2 then pis.1
      else if a > 0 && !(less (pis.1.get! (a-1)) (pis.1.get! pivot)) then
        let pe := partitionEqual less pis.1 a b pivot
        pdqsortLoop less fuel pe.1 pe.2 b limit1 wasBalanced wasPartitioned
      else
        let pr := partition less pis.1 a b pivot
        let mid := pr.2.1
        let wasPartitioned1 := pr.2.2
        let leftLen := mid - a
        let rightLen := b - mid
        let balanceThreshold := length / 8
        let wasBalanced1 := decide (min leftLen rightLen ≥ balanceThreshold)
        if leftLen < rightLen then
          pdqsortLoop less fuel (pdqsortLoop less fuel pr.1 a mid limit1 true true)
            (mid+1) b limit1 wasBalanced1 wasPartitioned1
        else
          pdqsortLoop less fuel (pdqsortLoop less fuel pr.1 (mid+1) b limit1 true true)
            a mid limit1 wasBalanced1 wasPartitioned1

/-- `sort.Slice(x, less)`: `pdqsort_func(data, 0, n, bits.Len(uint(n)))`.
The quadratic fuel strictly dominates the loop-iteration/recursion depth
of any run. -/
def goSortSlice (less : α → α → Bool) (l : List α) : List α :=
  let arr := l.toArray
  (pdqsortLoop less ((l.length + 2) * (l.length + 2)) arr 0 arr.size (bitsLen arr.size) true true).toList

end GoSort

/-! ## Sort modes and `sortJobs` -/

/-- The 8 sort modes (`SortMode` iota constants). -/
inductive SortMode where
  | ageDesc
  | ageAsc
  | gpuCountAsc
  | gpuCountDesc
  | durationDesc
  | durationAsc
  | gpuTypeDesc
  | gpuTypeAsc
deriving DecidableEq, Repr

/-- The `less` closure handed to `sort.Slice` for each mode. -/
def lessOfMode (mode : SortMode) : Job → Job → Bool := fun ji jj =>
  match mode with
  | .ageDesc => decide (parseAge ji.Age > parseAge jj.Age)
  | .ageAsc => decide (parseAge ji.Age < parseAge jj.Age)
  | .durationDesc => decide (parseDuration ji.Duration > parseDuration jj.Duration)
  | .durationAsc => decide (parseDuration ji.Duration < parseDuration jj.Duration)
  | .gpuCountAsc => decide (ji.GPUCount < jj.GPUCount)
  | .gpuCountDesc => decide (ji.GPUCount > jj.GPUCount)
  | .gpuTypeDesc => decide (getGPUTypePriority ji.GPUInfo > getGPUTypePriority jj.GPUInfo)
  | .gpuTypeAsc => decide (getGPUTypePriority ji.GPUInfo < getGPUTypePriority jj.GPUInfo)

/-- `sortJobs(jobs, mode)`: `sort.Slice` with the mode's comparator
(returning the sorted slice rather than mutating in place). -/
def sortJobs (jobs : List Job) (mode : SortMode) : List Job :=
  GoSort.goSortSlice (lessOfMode mode) jobs

/-! ## Command dispatcher (v1.1.3 `CommandHandler`) -/

/-- The 4 status filter modes (`FilterMode` iota constants, v1.1.3). -/
inductive FilterMode where
  | all
  | running
  | failed
  | pending
deriving DecidableEq, Repr

/-- Calls issued to the cluster client. -/
inductive ClusterCall where
  | getJob (name : String)
  | deleteJob (name : String)
deriving DecidableEq, Repr

/-- What `handleDelete` ends up showing. -/
inductive DeleteMsg where
  | headerIgnored
  | retrieveError
  | notOwner
  | cancelled
  | deleteError
  | deleted
deriving DecidableEq, Repr

/-- The mutable `CommandHandler` fields touched by delete / projection.
`tableRows` are the rendered data rows (name and status cells), header
excluded. -/
structure HandlerState where
  jobs : List Job
  tableRows : List (String × String)
  currentFilter : FilterMode
  currentSort : SortMode
  currentUser : String
  showOnlyUser : Bool
deriving DecidableEq, Repr

/-- Go `labels[key]` with its `ok` flag. -/
def labelLookup (labels : List (String × String)) (key : String) : Option String :=
  (labels.find? (fun p => p.1 == key)).map (fun p => p.2)

/-- The row-removal loop after a successful delete: remove the first
table row whose name cell matches. -/
def removeFirstRowNamed (name : String) : List (String × String) → List (String × String)
  | [] => []
  | r :: rs => if r.1 == name then rs else r :: removeFirstRowNamed name rs

/-- `CommandHandler.handleDelete`. The external interactions are passed
in: the result of the `Get` call, the modal button label, and the result
of the `Delete` call (consulted only when it is issued). Returns the new
state, the cluster calls issued, and the outcome message. -/
def handleDelete (s : HandlerState) (selRow : Nat)
    (getResult : Except String (List (String × String)))
    (confirmLabel : String) (deleteResult : Except String Unit) :
    HandlerState × List ClusterCall × DeleteMsg :=
  if selRow = 0 then (s, [], .headerIgnored)
  else
    let row := s.tableRows.getD (selRow - 1) ("", "")
    let jobName := row.1
    match getResult with
    | .error _ => (s, [.getJob jobName], .retrieveError)
    | .ok labels =>
      match labelLookup labels USER_LABEL with
      | none => (s, [.getJob jobName], .notOwner)
      | some owner =>
        if owner ≠ s.currentUser then (s, [.getJob jobName], .notOwner)
        else if confirmLabel = "Confirm" then
          match deleteResult with
          | .error _ => (s, [.getJob jobName, .deleteJob jobName], .deleteError)
          | .ok _ =>
            ({ s with tableRows := removeFirstRowNamed jobName s.tableRows },
             [.getJob jobName, .deleteJob jobName], .deleted)
        else (s, [.getJob jobName], .cancelled)

/-- `CommandHandler.updateTableWithFilter`: ownership filter, then status
filter, then sort; the result is the list of rows pushed into the table
(replacing all previous data rows). -/
def updateTableWithFilter (s : HandlerState) : List Job :=
  let filteredJobs :=
    if s.showOnlyUser then s.jobs.filter (fun job => strHasPrefix job.Name s.currentUser)
    else s.jobs
  let filteredJobs :=
    match s.currentFilter with
    | .all => filteredJobs
    | .running => filterJobsByStatus filteredJobs "Running"
    | .failed => filterJobsByStatus filteredJobs "Failed"
    | .pending => filterJobsByStatus filteredJobs "Pending"
  sortJobs filteredJobs s.currentSort

/-! ## Template parameter engine (`src` package, env-vars variant)

The placeholder syntax is the regex `\$\x7b([^:\x7d]+):-([^\x7d]+)\x7d`;
`placeholderAt` is its anchored matcher (regexp backtracking cannot
produce a match that the maximal-run reading misses, because the runs are
delimited by the very characters that follow them in the pattern). -/

/-- Try to match a `${NAME:-DEFAULT}` placeholder at the head of the
character list; on success return the name, the default, and the
remaining characters. -/
def placeholderAt : List Char → Option (String × String × List Char)
  | c1 :: c2 :: rest =>
    if c1 = '$' ∧ c2 = '{' then
      let (name, rest1) := List.span (fun c => !(c = ':' || c = '}')) rest
      if name.isEmpty then none
      else
        match rest1 with
        | d1 :: d2 :: rest2 =>
          if d1 = ':' ∧ d2 = '-' then
            let (dflt, rest3) := List.span (fun c => !(c = '}')) rest2
            if dflt.isEmpty then none
            else
              match rest3 with
              | e1 :: rest4 => if e1 = '}' then some (String.mk name, String.mk dflt, rest4) else none
              | [] => none
          else none
        | _ => none
    else none
  | _ => none

/-- `regexp.FindStringSubmatch`: the leftmost placeholder of a string, if
any (only the first match of each scalar is consulted by the source). -/
def firstPlaceholder : List Char → Option (String × String)
  | [] => none
  | c :: cs =>
    match placeholderAt (c :: cs) with
    | some (n, d, _) => some (n, d)
    | none => firstPlaceholder cs

/-- Modelled from the spec: the list of *all* placeholders of a string,
in order ("scans a templated document's scalar string fields for
placeholders of the form `${NAME:-DEFAULT}`" — the spec does not restrict
to the first occurrence per field). Used to state the original claim. -/
def allPlaceholders : Nat → List Char → List (String × String)
  | 0, _ => []
  | _+1, [] => []
  | fuel+1, c :: cs =>
    match placeholderAt (c :: cs) with
    | some (n, d, rest) => (n, d) :: allPlaceholders fuel rest
    | none => allPlaceholders fuel cs

-- A parsed YAML document as traversed by `extractEnvVars` (`yaml.v3`
-- unmarshals mappings into `map[string]interface{}` and sequences into
-- `[]interface{}`; non-string scalars are ignored by the traversal).
-- Go map iteration order is unspecified; the embedding fixes document
-- order.
mutual
/-- A parsed YAML value. -/
inductive YamlVal where
  | str (s : String)
  | scalar
  | map (entries : YamlMap)
  | seq (items : YamlSeq)
/-- A parsed YAML mapping. -/
inductive YamlMap where
  | nil
  | cons (key : String) (val : YamlVal) (rest : YamlMap)
/-- A parsed YAML sequence. -/
inductive YamlSeq where
  | nil
  | cons (head : YamlVal) (rest : YamlSeq)
end

-- `searchEnvVars`, the recursive traversal inside `extractEnvVars`:
-- record the first placeholder of each string scalar, first-seen-wins.
mutual
/-- Traversal of one YAML value. -/
def searchEnvVars (v : YamlVal) (acc : List (String × String)) : List (String × String) :=
  match v with
  | .str s =>
    match firstPlaceholder s.toList with
    | some (envVar, defaultValue) =>
      if acc.any (fun p => p.1 == envVar) then acc else acc ++ [(envVar, defaultValue)]
    | none => acc
  | .scalar => acc
  | .map es => searchEnvVarsMap es acc
  | .seq xs => searchEnvVarsSeq xs acc
/-- Traversal of a mapping's values. -/
def searchEnvVarsMap (es : YamlMap) (acc : List (String × String)) : List (String × String) :=
  match es with
  | .nil => acc
  | .cons _ v rest => searchEnvVarsMap rest (searchEnvVars v acc)
/-- Traversal of a sequence's items. -/
def searchEnvVarsSeq (xs : YamlSeq) (acc : List (String × String)) : List (String × String) :=
  match xs with
  | .nil => acc
  | .cons v rest => searchEnvVarsSeq rest (searchEnvVars v acc)
end

/-- `extractEnvVars` on an already-parsed document (the toplevel
unmarshal target is `map[string]interface{}`). The parameter set is an
association list in first-seen order; keys are unique by construction. -/
def extractEnvVars (root : YamlMap) : List (String × String) :=
  searchEnvVars (.map root) []

/-- Template normalization (in `downloadBaseConfig`):
`re.ReplaceAllString(content, "$$$1")` rewrites every `${NAME:-DEFAULT}`
to `$NAME`. -/
def normalizeChars : Nat → List Char → List Char
  | 0, cs => cs
  | _+1, [] => []
  | fuel+1, c :: cs =>
    match placeholderAt (c :: cs) with
    | some (n, _, rest) => '$' :: (n.toList ++ normalizeChars fuel rest)
    | none => c :: normalizeChars fuel cs

/-- `downloadBaseConfig`'s rewrite of the base template into
`base_apply_template.yaml`. -/
def normalizeTemplate (s : String) : String :=
  String.mk (normalizeChars s.toList.length s.toList)

/-! ### `envsubst` and `applyJobConfig` -/

/-- First character of a shell variable name. -/
def isVarStart (c : Char) : Bool := c.isAlpha || c = '_'

/-- Subsequent characters of a shell variable name. -/
def isVarChar (c : Char) : Bool := c.isAlphanum || c = '_'

/-- Value of a variable in the subprocess environment. `os/exec`
deduplicates `cmd.Env` keeping the last entry per key, so the lookup
takes the last binding. -/
def envValue (env : List (String × String)) (name : String) : Option String :=
  (env.reverse.find? (fun p => p.1 == name)).map (fun p => p.2)

/-- gettext `envsubst` (no SHELL-FORMAT argument): every `$NAME` or
`${NAME}` reference is replaced by the variable's value, the empty string
when it is unset; it never fails and never leaves a recognized reference
literal. -/
def envsubstChars (env : List (String × String)) : Nat → List Char → List Char
  | 0, cs => cs
  | _+1, [] => []
  | fuel+1, c :: rest =>
    if c = '$' then
      match rest with
      | [] => ['$']
      | c2 :: rest2 =>
        if c2 = '{' then
          let (name, rest3) := List.span isVarChar rest2
          (match rest3 with
          | '}' :: rest4 =>
            if name.isEmpty then '$' :: envsubstChars env fuel rest
            else ((envValue env (String.mk name)).getD "").toList ++ envsubstChars env fuel rest4
          | _ => '$' :: envsubstChars env fuel rest)
        else if isVarStart c2 then
          let (name, rest3) := List.span isVarChar rest
          ((envValue env (String.mk name)).getD "").toList ++ envsubstChars env fuel rest3
        else '$' :: envsubstChars env fuel rest
    else c :: envsubstChars env fuel rest

/-- Run `envsubst` over a document. -/
def envsubstRun (env : List (String × String)) (s : String) : String :=
  String.mk (envsubstChars env s.toList.length s.toList)

/-- What `applyJobConfig` did: which documents were handed to
`kubectl apply`, and the overall result. -/
structure ApplyOutcome where
  appliedDocs : List String
  result : Except String Unit
deriving Repr

/-- `applyJobConfig` (env-vars variant): read the normalized template,
run `envsubst` with `os.Environ()` extended by the `ParameterSet`
entries, and hand the output to `kubectl apply`. The local file I/O
succeeds in this model; the apply call's own result is a parameter. -/
def applyJobConfig (osEnviron envVars : List (String × String))
    (templateContent : String) (kubectlApply : String → Except String Unit) :
    ApplyOutcome :=
  let env := osEnviron ++ envVars
  let output := envsubstRun env templateContent
  match kubectlApply output with
  | .error e => { appliedDocs := [output], result := .error e }
  | .ok _ => { appliedDocs := [output], result := .ok () }

/-! ### Editing operations over a `ParameterSet` -/

/-- A form-field callback: `config.EnvVars[envVar] = text` (Go map
assignment; the form only creates fields for existing keys). -/
def setEnvVar (cfg : List (String × String)) (key val : String) :
    List (String × String) :=
  if cfg.any (fun p => p.1 == key) then
    cfg.map (fun p => if p.1 == key then (p.1, val) else p)
  else cfg ++ [(key, val)]

/-- `editInVim` after the editor session: re-parse the edited document;
on failure surface the error and keep the previous `EnvVars`, on success
replace `EnvVars` with the parsed mapping. -/
def editInVim (cfg : List (String × String))
    (parsed : Except String (List (String × String))) :
    List (String × String) × Option String :=
  match parsed with
  | .error e => (cfg, some e)
  | .ok newEnvVars => (newEnvVars, none)

/-! ## Concrete inputs used by the claim theorems and witnesses -/

/-- A job whose status counters are all zero and whose single container
declares no accelerator limit. -/
def jobZero : K8sJob :=
  { name := "alice-job-1", labels := [("eidf/user", "alice")], specCompletions := none,
    templateContainers := [{ limits := [] }], templateNodeSelector := [],
    statusActive := 0, statusSucceeded := 0, statusFailed := 0,
    startTime := none, completionTime := none, creationTimestamp := 0 }

/-- A pod whose first container has limits but no `nvidia.com/gpu`. -/
def podNoGPU : K8sPod :=
  { containers := [{ limits := [("cpu", 4)] }], nodeSelector := [], controllerOwner := none }

/-- The record filters of `updateTableWithFilter` as a predicate: the
ownership filter and the status filter. -/
def passesFilters (s : HandlerState) (j : Job) : Bool :=
  (if s.showOnlyUser then strHasPrefix j.Name s.currentUser else true)
  && (match s.currentFilter with
      | .all => true
      | .running => j.Status == "Running"
      | .failed => j.Status == "Failed"
      | .pending => j.Status == "Pending")

/-- Alice's handler state with bob's job selected (for the ownership
rejection witness). -/
def stateAlice : HandlerState :=
  { jobs := [], tableRows := [("bob-job", "Running")], currentFilter := .all,
    currentSort := .ageDesc, currentUser := "alice", showOnlyUser := false }

/-- The UI row of a running job owned by alice. -/
def jobRowAlice : Job :=
  { Name := "alice-job-1", Status := "Running", Completions := "0/1", Duration := "5m",
    Age := "10m", Pods := "1 pods", GPUCount := 1, GPUInfo := "H100-80G" }

/-- Alice's handler state with her own job in the snapshot and the
table. -/
def stateAliceOwn : HandlerState :=
  { jobs := [jobRowAlice], tableRows := [("alice-job-1", "Running")], currentFilter := .all,
    currentSort := .ageDesc, currentUser := "alice", showOnlyUser := false }

/-- A one-field template document: `image: ${IMAGE:-nginx}`. -/
def c6Tmpl : YamlMap := .cons "image" (.str "${IMAGE:-nginx}") .nil

/-- A scalar with two placeholders (only the first is extracted). -/
def c2Doc : YamlMap := .cons "a" (.str "${A:-1} ${B:-2}") .nil

/-- The spec scenario template: `image: ${IMAGE:-nginx}` and
`gpu: ${GPU_PRODUCT:-NVIDIA-A100-SXM4-80GB}`. -/
def c2Scenario : YamlMap :=
  .cons "image" (.str "${IMAGE:-nginx}")
    (.cons "gpu" (.str "${GPU_PRODUCT:-NVIDIA-A100-SXM4-80GB}") .nil)

-- The flattened list of each scalar's first placeholder, in traversal
-- order: the items the extraction traversal actually records.
mutual
/-- First placeholder of each scalar of a value, in order. -/
def firstMatches (v : YamlVal) : List (String × String) :=
  match v with
  | .str s =>
    match firstPlaceholder s.toList with
    | some nd => [nd]
    | none => []
  | .scalar => []
  | .map es => firstMatchesMap es
  | .seq xs => firstMatchesSeq xs
/-- First placeholder of each scalar of a mapping's values. -/
def firstMatchesMap (es : YamlMap) : List (String × String) :=
  match es with
  | .nil => []
  | .cons _ v rest => firstMatches v ++ firstMatchesMap rest
/-- First placeholder of each scalar of a sequence's items. -/
def firstMatchesSeq (xs : YamlSeq) : List (String × String) :=
  match xs with
  | .nil => []
  | .cons v rest => firstMatches v ++ firstMatchesSeq rest
end

/-- Insert-if-absent fold: the accumulator discipline of
`searchEnvVars`. -/
def foldIns (acc : List (String × String)) : List (String × String) → List (String × String)
  | [] => acc
  | nd :: rest => foldIns (if acc.any (fun p => p.1 == nd.1) then acc else acc ++ [nd]) rest

/-- A job record whose only distinguishing fields are the name and the
GPU count (the other columns empty), for exercising the sort. -/
def mkJob (n : String) (c : Int) : Job :=
  { Name := n, Status := "", Completions := "", Duration := "", Age := "", Pods := "",
    GPUCount := c, GPUInfo := "" }

/-- Thirteen job rows (just above the `maxInsertion = 12` cutoff of
`pdqsort`): the two rows with GPU count 0 sit at positions 1 and 12. -/
def cexJobs : List Job :=
  [mkJob "a" 1, mkJob "b" 0, mkJob "c" 1, mkJob "d" 1, mkJob "e" 1, mkJob "f" 1,
   mkJob "g" 1, mkJob "h" 1, mkJob "i" 1, mkJob "j" 1, mkJob "k" 1, mkJob "l" 1, mkJob "m" 0]

/-! ## Permutation facts about the sort model

Everything `pdqsort` does to the array is a `swap!`, so every phase
permutes the elements. -/

section PermLemmas

variable {α : Type}

/-- Moving the `m`-th element to the front while writing `x` at position
`m` permutes `x :: t`. -/
theorem cons_set_perm : ∀ (t : List α) (m : Nat) (hm : m < t.length) (x : α),
    (t.get ⟨m, hm⟩ :: t.set m x).Perm (x :: t)
  | y :: t', 0, _, x => List.Perm.swap x y t'
  | y :: t', m+1, hm, x => by
    have hm' : m < t'.length := Nat.lt_of_succ_lt_succ (by simpa using hm)
    have h1 : (t'.get ⟨m, hm'⟩ :: y :: t'.set m x).Perm (y :: t'.get ⟨m, hm'⟩ :: t'.set m x) :=
      List.Perm.swap y (t'.get ⟨m, hm'⟩) _
    have h2 : (y :: t'.get ⟨m, hm'⟩ :: t'.set m x).Perm (y :: x :: t') :=
      (cons_set_perm t' m hm' x).cons y
    have h3 : (y :: x :: t').Perm (x :: y :: t') := List.Perm.swap x y t'
    simpa using (h1.trans h2).trans h3

/-- The list-level effect of an array swap is a permutation. -/
theorem set_set_swap_perm : ∀ (l : List α) (i j : Nat) (hi : i < l.length) (hj : j < l.length),
    ((l.set i (l.get ⟨j, hj⟩)).set j (l.get ⟨i, hi⟩)).Perm l
  | x :: t, 0, 0, _, _ => by simp
  | x :: t, 0, m+1, hi, hj => by
    have hm : m < t.length := Nat.lt_of_succ_lt_succ (by simpa using hj)
    simpa using cons_set_perm t m hm x
  | x :: t, n+1, 0, hi, hj => by
    have hn : n < t.length := Nat.lt_of_succ_lt_succ (by simpa using hi)
    simpa using cons_set_perm t n hn x
  | x :: t, n+1, m+1, hi, hj => by
    have hn : n < t.length := Nat.lt_of_succ_lt_succ (by simpa using hi)
    have hm : m < t.length := Nat.lt_of_succ_lt_succ (by simpa using hj)
    simpa using (set_set_swap_perm t n m hn hm).cons x

/-- `Array.swap!` permutes `toList` (out-of-bounds indices leave the
array unchanged). -/
theorem swapBang_perm (a : Array α) (i j : Nat) : (a.swap! i j).toList.Perm a.toList := by
  unfold Array.swap!
  split
  · split
    · rename_i h1 h2
      have hi : i < a.toList.length := by rw [Array.length_toList]; exact h1
      have hj : j < a.toList.length := by rw [Array.length_toList]; exact h2
      have e1 : a.get ⟨j, h2⟩ = a.toList.get ⟨j, hj⟩ := by
        rw [Array.get_eq_getElem, List.get_eq_getElem, Array.getElem_eq_getElem_toList]
      have e2 : a.get ⟨i, h1⟩ = a.toList.get ⟨i, hi⟩ := by
        rw [Array.get_eq_getElem, List.get_eq_getElem, Array.getElem_eq_getElem_toList]
      rw [Array.toList_swap, e1, e2]
      exact set_set_swap_perm a.toList i j hi hj
    · exact List.Perm.refl _
  · exact List.Perm.refl _

end PermLemmas

namespace GoSort

variable {α : Type} [Inhabited α]

/-- The insertion-sort inner loop permutes the array. -/
theorem insertionSortInner_perm (less : α → α → Bool) :
    ∀ (fuel : Nat) (arr : Array α) (j a : Nat),
      (insertionSortInner less fuel arr j a).toList.Perm arr.toList
  | 0, _, _, _ => .refl _
  | fuel+1, arr, j, a => by
    rw [insertionSortInner]
    split
    · exact (insertionSortInner_perm less fuel _ _ _).trans (swapBang_perm _ _ _)
    · exact .refl _

/-- The insertion-sort outer loop permutes the array. -/
theorem insertionSortOuter_perm (less : α → α → Bool) :
    ∀ (fuel : Nat) (arr : Array α) (i a b : Nat),
      (insertionSortOuter less fuel arr i a b).toList.Perm arr.toList
  | 0, _, _, _, _ => .refl _
  | fuel+1, arr, i, a, b => by
    rw [insertionSortOuter]
    split
    · exact (insertionSortOuter_perm less fuel _ _ _ _).trans (insertionSortInner_perm less _ _ _ _)
    · exact .refl _

/-- `insertionSort` permutes the array. -/
theorem insertionSort_perm (less : α → α → Bool) (arr : Array α) (a b : Nat) :
    (insertionSort less arr a b).toList.Perm arr.toList :=
  insertionSortOuter_perm less _ _ _ _ _

/-- `siftDown` permutes the array. -/
theorem siftDown_perm (less : α → α → Bool) :
    ∀ (fuel : Nat) (arr : Array α) (root hi first : Nat),
      (siftDown less fuel arr root hi first).toList.Perm arr.toList
  | 0, _, _, _, _ => .refl _
  | fuel+1, arr, root, hi, first => by
    simp only [siftDown]
    repeat' split
    all_goals
      first
        | exact .refl _
        | exact (siftDown_perm less fuel _ _ _ _).trans (swapBang_perm _ _ _)

/-- Heap construction permutes the array. -/
theorem heapBuild_perm (less : α → α → Bool) (hi first : Nat) :
    ∀ (k : Nat) (arr : Array α), (heapBuild less hi first k arr).toList.Perm arr.toList
  | 0, _ => .refl _
  | k+1, arr => by
    rw [heapBuild]
    exact (heapBuild_perm less hi first k _).trans (siftDown_perm less _ _ _ _ _)

/-- Heap extraction permutes the array. -/
theorem heapSortLoop_perm (less : α → α → Bool) (first : Nat) :
    ∀ (k : Nat) (arr : Array α), (heapSortLoop less first k arr).toList.Perm arr.toList
  | 0, _ => .refl _
  | k+1, arr => by
    rw [heapSortLoop]
    exact (heapSortLoop_perm less first k _).trans
      ((siftDown_perm less _ _ _ _ _).trans (swapBang_perm _ _ _))

/-- `heapSort` permutes the array. -/
theorem heapSort_perm (less : α → α → Bool) (arr : Array α) (a b : Nat) :
    (heapSort less arr a b).toList.Perm arr.toList := by
  unfold heapSort
  exact (heapSortLoop_perm less _ _ _).trans (heapBuild_perm less _ _ _ _)

/-- `reverseRange` permutes the array. -/
theorem reverseRangeLoop_perm :
    ∀ (fuel : Nat) (arr : Array α) (i j : Nat),
      (reverseRangeLoop fuel arr i j).toList.Perm arr.toList
  | 0, _, _, _ => .refl _
  | fuel+1, arr, i, j => by
    rw [reverseRangeLoop]
    split
    · exact (reverseRangeLoop_perm fuel _ _ _).trans (swapBang_perm _ _ _)
    · exact .refl _

/-- `reverseRange` permutes the array. -/
theorem reverseRange_perm (arr : Array α) (a b : Nat) :
    (reverseRange arr a b).toList.Perm arr.toList :=
  reverseRangeLoop_perm _ _ _ _

/-- The left-shift loop permutes the array. -/
theorem pisShiftLeft_perm (less : α → α → Bool) :
    ∀ (fuel : Nat) (arr : Array α) (j : Nat),
      (pisShiftLeft less fuel arr j).toList.Perm arr.toList
  | 0, _, _ => .refl _
  | fuel+1, arr, j => by
    rw [pisShiftLeft]
    split
    · split
      · exact .refl _
      · exact (pisShiftLeft_perm less fuel _ _).trans (swapBang_perm _ _ _)
    · exact .refl _

/-- The right-shift loop permutes the array. -/
theorem pisShiftRight_perm (less : α → α → Bool) (b : Nat) :
    ∀ (fuel : Nat) (arr : Array α) (j : Nat),
      (pisShiftRight less b fuel arr j).toList.Perm arr.toList
  | 0, _, _ => .refl _
  | fuel+1, arr, j => by
    rw [pisShiftRight]
    split
    · split
      · exact .refl _
      · exact (pisShiftRight_perm less b fuel _ _).trans (swapBang_perm _ _ _)
    · exact .refl _

/-- The partial-insertion-sort loop permutes the array. -/
theorem pisLoop_perm (less : α → α → Bool) (a b : Nat) :
    ∀ (steps : Nat) (arr : Array α) (i : Nat),
      (pisLoop less a b steps arr i).1.toList.Perm arr.toList
  | 0, _, _ => .refl _
  | steps+1, arr, i => by
    simp only [pisLoop]
    repeat' split
    all_goals
      first
        | exact .refl _
        | exact (pisLoop_perm less a b steps _ _).trans
            ((pisShiftRight_perm less b _ _ _).trans
              ((pisShiftLeft_perm less _ _ _).trans (swapBang_perm _ _ _)))
        | exact (pisLoop_perm less a b steps _ _).trans
            ((pisShiftLeft_perm less _ _ _).trans (swapBang_perm _ _ _))
        | exact (pisLoop_perm less a b steps _ _).trans
            ((pisShiftRight_perm less b _ _ _).trans (swapBang_perm _ _ _))
        | exact (pisLoop_perm less a b steps _ _).trans (swapBang_perm _ _ _)

/-- `partialInsertionSort` permutes the array. -/
theorem partialInsertionSort_perm (less : α → α → Bool) (arr : Array α) (a b : Nat) :
    (partialInsertionSort less arr a b).1.toList.Perm arr.toList :=
  pisLoop_perm less a b 5 arr (a+1)

/-- `breakPatterns` permutes the array. -/
theorem breakPatterns_perm (arr : Array α) (a b : Nat) :
    (breakPatterns arr a b).toList.Perm arr.toList := by
  simp only [breakPatterns]
  repeat' split
  all_goals
    first
      | exact .refl _
      | exact (swapBang_perm _ _ _).trans ((swapBang_perm _ _ _).trans (swapBang_perm _ _ _))

/-- The partition loop permutes the array. -/
theorem partitionLoop_perm (less : α → α → Bool) (a b : Nat) :
    ∀ (fuel : Nat) (arr : Array α) (i j : Nat),
      (partitionLoop less a b fuel arr i j).1.toList.Perm arr.toList
  | 0, _, _, _ => .refl _
  | fuel+1, arr, i, j => by
    rw [partitionLoop]
    split
    · exact .refl _
    · exact (partitionLoop_perm less a b fuel _ _ _).trans (swapBang_perm _ _ _)

/-- `partition` permutes the array. -/
theorem partition_perm (less : α → α → Bool) (arr0 : Array α) (a b pivot : Nat) :
    (partition less arr0 a b pivot).1.toList.Perm arr0.toList := by
  simp only [partition]
  split
  · exact (swapBang_perm _ _ _).trans (swapBang_perm _ _ _)
  · exact (swapBang_perm _ _ _).trans
      ((partitionLoop_perm less a b _ _ _ _).trans
        ((swapBang_perm _ _ _).trans (swapBang_perm _ _ _)))

/-- The partition-equal loop permutes the array. -/
theorem partitionEqualLoop_perm (less : α → α → Bool) (a b : Nat) :
    ∀ (fuel : Nat) (arr : Array α) (i j : Nat),
      (partitionEqualLoop less a b fuel arr i j).1.toList.Perm arr.toList
  | 0, _, _, _ => .refl _
  | fuel+1, arr, i, j => by
    rw [partitionEqualLoop]
    split
    · exact .refl _
    · exact (partitionEqualLoop_perm less a b fuel _ _ _).trans (swapBang_perm _ _ _)

/-- `partitionEqual` permutes the array. -/
theorem partitionEqual_perm (less : α → α → Bool) (arr0 : Array α) (a b pivot : Nat) :
    (partitionEqual less arr0 a b pivot).1.toList.Perm arr0.toList := by
  simp only [partitionEqual]
  exact (partitionEqualLoop_perm less a b _ _ _ _).trans (swapBang_perm _ _ _)

set_option maxHeartbeats 2000000 in
/-- `pdqsort_func` permutes the array: induction on fuel, peeling one
phase at a time. -/
theorem pdqsortLoop_perm (less : α → α → Bool) :
    ∀ (fuel : Nat) (arr : Array α) (a b limit : Nat) (wasBalanced wasPartitioned : Bool),
      (pdqsortLoop less fuel arr a b limit wasBalanced wasPartitioned).toList.Perm arr.toList
  | 0, _, _, _, _, _, _ => .refl _
  | fuel+1, arr, a, b, limit, wasBalanced, wasPartitioned => by
    simp only [pdqsortLoop]
    repeat' split
    all_goals
      repeat
        first
          | exact List.Perm.refl _
          | exact insertionSort_perm less _ _ _
          | exact heapSort_perm less _ _ _
          | refine List.Perm.trans (pdqsortLoop_perm less fuel _ _ _ _ _ _) ?_
          | refine List.Perm.trans (partitionEqual_perm less _ _ _ _) ?_
          | refine List.Perm.trans (partition_perm less _ _ _ _) ?_
          | refine List.Perm.trans (partialInsertionSort_perm less _ _ _) ?_
          | refine List.Perm.trans (reverseRange_perm _ _ _) ?_
          | refine List.Perm.trans (breakPatterns_perm _ _ _) ?_

/-- `sort.Slice` permutes the list. -/
theorem goSortSlice_perm (less : α → α → Bool) (l : List α) :
    (goSortSlice less l).Perm l := by
  unfold goSortSlice
  have h := pdqsortLoop_perm less ((l.length + 2) * (l.length + 2)) l.toArray 0
    l.toArray.size (bitsLen l.toArray.size) true true
  simpa using h

end GoSort

/-! ## Claim theorems -/

/-- C7: for every raw workload record, `deriveStatus` is a total,
deterministic function of the active/succeeded/failed counts returning
exactly one of the four values: Running if active > 0; else Complete if
succeeded > 0; else Failed if failed > 0; else Pending — in particular
all-zero counters yield "Pending" and active > 0 yields "Running"
regardless of the other counts. -/
theorem claim_C7_deriveStatus (j : K8sJob) :
    (deriveStatus j = "Running" ∨ deriveStatus j = "Complete" ∨
      deriveStatus j = "Failed" ∨ deriveStatus j = "Pending")
    ∧ (j.statusActive > 0 → deriveStatus j = "Running")
    ∧ (j.statusActive ≤ 0 → j.statusSucceeded > 0 → deriveStatus j = "Complete")
    ∧ (j.statusActive ≤ 0 → j.statusSucceeded ≤ 0 → j.statusFailed > 0 →
        deriveStatus j = "Failed")
    ∧ (j.statusActive ≤ 0 → j.statusSucceeded ≤ 0 → j.statusFailed ≤ 0 →
        deriveStatus j = "Pending") := by
  unfold deriveStatus
  refine ⟨?_, ?_, ?_, ?_, ?_⟩ <;> intros <;> split_ifs <;> simp_all <;> omega

/-- C7 witness: all-zero counters give "Pending"; `active = 1` gives
"Running" even with nonzero succeeded/failed counts. -/
theorem claim_C7_witness :
    deriveStatus jobZero = "Pending"
    ∧ deriveStatus { jobZero with statusActive := 1, statusSucceeded := 5, statusFailed := 7 } = "Running" :=
  ⟨(claim_C7_deriveStatus jobZero).2.2.2.2 (by decide) (by decide) (by decide),
   (claim_C7_deriveStatus _).2.1 (by decide)⟩

/-- C9: the snapshot operation fails atomically in both variants: if the
workload list call or the pod list call fails, `getJobs` returns an error
(and hence no workload records at all). -/
theorem claim_C9_getJobs_atomic (jobsRes : Except String (List K8sJob))
    (podsRes : Except String (List K8sPod)) (now : Int)
    (h : (∃ e, jobsRes = .error e) ∨ (∃ e, podsRes = .error e)) :
    (∃ e, V113.getJobs jobsRes podsRes now = .error e)
    ∧ (∃ e, V100.getJobs jobsRes podsRes now = .error e) := by
  rcases h with ⟨e, he⟩ | ⟨e, he⟩
  · subst he; exact ⟨⟨e, rfl⟩, ⟨e, rfl⟩⟩
  · subst he
    cases jobsRes with
    | error e2 => exact ⟨⟨e2, rfl⟩, ⟨e2, rfl⟩⟩
    | ok l => exact ⟨⟨e, rfl⟩, ⟨e, rfl⟩⟩

/-- C9 witness: a failing workload-list call aborts both variants. -/
theorem claim_C9_witness :
    (∃ e, V113.getJobs (Except.error "connection refused") (Except.ok []) 0 = Except.error e)
    ∧ (∃ e, V100.getJobs (Except.error "connection refused") (Except.ok []) 0 = Except.error e) :=
  claim_C9_getJobs_atomic _ _ 0 (Or.inl ⟨"connection refused", rfl⟩)

/-- C5: when the selected record's ownership label is absent or differs
from the current identity, `handleDelete` issues no delete call to the
cluster client, shows the rejection message, and leaves the state
untouched. -/
theorem claim_C5_delete_ownership_guard (s : HandlerState) (selRow : Nat)
    (labels : List (String × String)) (confirmLabel : String)
    (deleteResult : Except String Unit)
    (hrow : selRow ≠ 0)
    (howner : ∀ o, labelLookup labels USER_LABEL = some o → o ≠ s.currentUser) :
    (∀ n, ClusterCall.deleteJob n ∉
        (handleDelete s selRow (.ok labels) confirmLabel deleteResult).2.1)
    ∧ (handleDelete s selRow (.ok labels) confirmLabel deleteResult).2.2 = DeleteMsg.notOwner
    ∧ (handleDelete s selRow (.ok labels) confirmLabel deleteResult).1 = s := by
  simp only [handleDelete]
  rw [if_neg hrow]
  cases hl : labelLookup labels USER_LABEL with
  | none => simp
  | some o =>
    have ho : o ≠ s.currentUser := howner o hl
    simp [ho]

/-- C5 witness: deleting bob's job as alice is rejected without a delete
call. -/
theorem claim_C5_witness :
    (∀ n, ClusterCall.deleteJob n ∉
        (handleDelete stateAlice 1 (.ok [("eidf/user", "bob")]) "Confirm" (.ok ())).2.1)
    ∧ (handleDelete stateAlice 1 (.ok [("eidf/user", "bob")]) "Confirm" (.ok ())).2.2
      = DeleteMsg.notOwner :=
  have h := claim_C5_delete_ownership_guard stateAlice
    1 [("eidf/user", "bob")] "Confirm" (.ok ()) (by decide)
    (by intro o ho hoe; simp [labelLookup, USER_LABEL] at ho; subst hoe; simp [stateAlice] at ho)
  ⟨h.1, h.2.1⟩

/-- C1 counterexample: in the latest variant, a job whose accelerator
resource quantity is absent (zero) is summarized as "Unknown", never as
"No GPU" — `summarizeGPU` (v1.1.3) does not read the accelerator quantity
at all. -/
theorem claim_C1_counterexample :
    V113.jobGPUCount jobZero = 0
    ∧ V113.summarizeGPU jobZero = "Unknown"
    ∧ V113.summarizeGPU jobZero ≠ "No GPU" := by
  refine ⟨by decide, by decide, by decide⟩

/-- C1 (amended): in the v1.0.0 `summarizeGPU` (pod-based), a zero or
absent accelerator quantity on the first pod's first container yields
"No GPU", and a workload with no pods yet yields the distinguished
waiting sentinel "⏳ No Pod", distinct from "No GPU"; the v1.1.3 variant
never produces "No GPU". -/
theorem claim_C1_summarizeGPU (pods : List K8sPod) (pod : K8sPod) (rest : List K8sPod)
    (c : K8sContainer) (crest : List K8sContainer)
    (hpods : pods = pod :: rest) (hc : pod.containers = c :: crest)
    (hzero : resourceLookup c.limits "nvidia.com/gpu" = 0) :
    V100.summarizeGPU [] = some (EMOJI_WAITING ++ " No Pod")
    ∧ EMOJI_WAITING ++ " No Pod" ≠ "No GPU"
    ∧ V100.summarizeGPU pods = some "No GPU" := by
  subst hpods
  refine ⟨rfl, by decide, ?_⟩
  simp only [V100.summarizeGPU]
  rw [hc]
  simp [hzero, quantityIsZero]

/-- C1 witness: a pod with no `nvidia.com/gpu` limit gives "No GPU"; no
pods give the waiting sentinel. -/
theorem claim_C1_witness :
    V100.summarizeGPU [podNoGPU] = some "No GPU"
    ∧ V100.summarizeGPU [] = some (EMOJI_WAITING ++ " No Pod") :=
  have h := claim_C1_summarizeGPU [podNoGPU] podNoGPU [] { limits := [("cpu", 4)] } []
    rfl rfl (by decide)
  ⟨h.2.2, h.1⟩

/-- `sortJobs` permutes its input (sorting is delegated to
`sort.Slice`). -/
theorem sortJobs_perm (jobs : List Job) (mode : SortMode) :
    (sortJobs jobs mode).Perm jobs :=
  GoSort.goSortSlice_perm _ _

/-- A snapshot record that passes the current filters appears in the
re-projected table. -/
theorem mem_updateTableWithFilter (s : HandlerState) (j : Job)
    (hj : j ∈ s.jobs) (hp : passesFilters s j = true) :
    j ∈ updateTableWithFilter s := by
  simp only [updateTableWithFilter]
  refine (sortJobs_perm _ _).mem_iff.mpr ?_
  simp only [passesFilters, Bool.and_eq_true] at hp
  obtain ⟨hp1, hp2⟩ := hp
  cases hf : s.currentFilter <;> rw [hf] at hp2 <;> cases hsu : s.showOnlyUser <;>
    rw [hsu] at hp1 <;>
    simp_all [filterJobsByStatus, List.mem_filter]

/-- C10: a confirmed successful delete removes only the rendered table
row: the snapshot list and all filter state are untouched, so the deleted
record (passing the current filters) is displayed again by the next
re-projection. -/
theorem claim_C10_delete_frame (s : HandlerState) (selRow : Nat)
    (labels : List (String × String))
    (hrow : selRow ≠ 0)
    (howner : labelLookup labels USER_LABEL = some s.currentUser) :
    ((handleDelete s selRow (.ok labels) "Confirm" (.ok ())).1.jobs = s.jobs)
    ∧ ((handleDelete s selRow (.ok labels) "Confirm" (.ok ())).1.tableRows
        = removeFirstRowNamed (s.tableRows.getD (selRow - 1) ("", "")).1 s.tableRows)
    ∧ ((handleDelete s selRow (.ok labels) "Confirm" (.ok ())).2.2 = DeleteMsg.deleted)
    ∧ ((handleDelete s selRow (.ok labels) "Confirm" (.ok ())).1.currentFilter = s.currentFilter)
    ∧ ((handleDelete s selRow (.ok labels) "Confirm" (.ok ())).1.currentSort = s.currentSort)
    ∧ ((handleDelete s selRow (.ok labels) "Confirm" (.ok ())).1.showOnlyUser = s.showOnlyUser)
    ∧ (∀ j ∈ s.jobs, passesFilters s j = true →
        j ∈ updateTableWithFilter (handleDelete s selRow (.ok labels) "Confirm" (.ok ())).1) := by
  have hred : handleDelete s selRow (.ok labels) "Confirm" (.ok ())
      = ({ s with tableRows :=
            removeFirstRowNamed (s.tableRows.getD (selRow - 1) ("", "")).1 s.tableRows },
        [ClusterCall.getJob (s.tableRows.getD (selRow - 1) ("", "")).1,
          ClusterCall.deleteJob (s.tableRows.getD (selRow - 1) ("", "")).1],
        DeleteMsg.deleted) := by
    simp only [handleDelete]
    rw [if_neg hrow, howner]
    simp
  rw [hred]
  refine ⟨rfl, rfl, rfl, rfl, rfl, rfl, ?_⟩
  intro j hj hp
  exact mem_updateTableWithFilter _ j hj hp

/-- C10 witness: deleting alice's own job removes the table row but the
record survives in the snapshot and reappears in the projection. -/
theorem claim_C10_witness :
    ((handleDelete stateAliceOwn 1 (.ok [("eidf/user", "alice")]) "Confirm" (.ok ())).1.jobs
      = stateAliceOwn.jobs)
    ∧ ((handleDelete stateAliceOwn 1 (.ok [("eidf/user", "alice")]) "Confirm" (.ok ())).1.tableRows
        = removeFirstRowNamed "alice-job-1" stateAliceOwn.tableRows)
    ∧ jobRowAlice ∈ updateTableWithFilter
        (handleDelete stateAliceOwn 1 (.ok [("eidf/user", "alice")]) "Confirm" (.ok ())).1 :=
  have h := claim_C10_delete_frame stateAliceOwn 1 [("eidf/user", "alice")]
    (by decide) (by decide)
  ⟨h.1, h.2.1, h.2.2.2.2.2.2 jobRowAlice (by simp [stateAliceOwn]) (by decide)⟩

/-- C6 counterexample: extraction of the template `image: ${IMAGE:-nginx}`
yields the single key IMAGE, but a successful bulk (vim) re-import whose
edited document defines an extra key EVIL replaces the `ParameterSet`
with a mapping containing EVIL — a key that never appeared as a
placeholder in the template. -/
theorem claim_C6_counterexample :
    extractEnvVars c6Tmpl = [("IMAGE", "nginx")]
    ∧ (editInVim (extractEnvVars c6Tmpl)
        (.ok [("IMAGE", "nginx"), ("EVIL", "wipe")])).1
      = [("IMAGE", "nginx"), ("EVIL", "wipe")]
    ∧ "EVIL" ∉ (allPlaceholders "${IMAGE:-nginx}".toList.length
        "${IMAGE:-nginx}".toList).map Prod.fst :=
  ⟨rfl, rfl, by decide⟩

/-- C6 (amended): structured field edits never create unknown keys — a
form-field callback for an existing key preserves the key set exactly; a
failed bulk re-import leaves the prior `ParameterSet` untouched; but a
successful bulk re-import replaces the `ParameterSet` wholesale with the
edited document's mapping, whatever keys it defines. -/
theorem claim_C6_editing (cfg m : List (String × String)) (k v : String) (e : String)
    (hk : k ∈ cfg.map Prod.fst) :
    (setEnvVar cfg k v).map Prod.fst = cfg.map Prod.fst
    ∧ (editInVim cfg (.error e)).1 = cfg
    ∧ (editInVim cfg (.ok m)).1 = m := by
  refine ⟨?_, rfl, rfl⟩
  obtain ⟨p, hp, hpk⟩ := List.mem_map.mp hk
  have hany : cfg.any (fun p => p.1 == k) = true := by
    rw [List.any_eq_true]
    exact ⟨p, hp, by simp [hpk]⟩
  rw [setEnvVar, if_pos hany, List.map_map]
  refine List.map_congr_left ?_
  intro q hq
  by_cases hqk : q.1 == k
  · simp only [Function.comp_apply, if_pos hqk]
  · simp only [Function.comp_apply, if_neg hqk]

/-- C6 witness: editing the existing IMAGE key keeps the key set; an
invalid edited document leaves the set untouched; a valid one replaces
it. -/
theorem claim_C6_witness :
    (setEnvVar [("IMAGE", "nginx")] "IMAGE" "alpine").map Prod.fst
      = [("IMAGE", "nginx")].map Prod.fst
    ∧ (editInVim [("IMAGE", "nginx")] (.error "yaml: bad")).1 = [("IMAGE", "nginx")]
    ∧ (editInVim [("IMAGE", "nginx")] (.ok [("IMAGE", "x"), ("EVIL", "y")])).1
      = [("IMAGE", "x"), ("EVIL", "y")] :=
  claim_C6_editing [("IMAGE", "nginx")] [("IMAGE", "x"), ("EVIL", "y")]
    "IMAGE" "alpine" "yaml: bad" (by decide)

/-- The span loop over an all-satisfying list consumes everything. -/
theorem span_loop_all {p : Char → Bool} : ∀ (l rs : List Char), (∀ c ∈ l, p c = true) →
    List.span.loop p l rs = (rs.reverse ++ l, [])
  | [], rs, _ => by simp [List.span.loop]
  | c :: cs, rs, h => by
    have hc : p c = true := h c (List.mem_cons_self c cs)
    simp only [List.span.loop, hc]
    rw [span_loop_all cs (c :: rs) (fun x hx => h x (List.mem_cons_of_mem c hx))]
    simp

/-- A span over an all-satisfying list consumes everything. -/
theorem span_eq_all {p : Char → Bool} (l : List Char) (h : ∀ c ∈ l, p c = true) :
    List.span p l = (l, []) := by
  rw [List.span, span_loop_all l [] h]
  simp

/-- `envsubst` on a bare `$NAME` reference standing alone: the reference
is replaced by the variable's value, the empty string when unset. -/
theorem envsubstChars_dollar_name (env : List (String × String)) (fuel : Nat)
    (c : Char) (cs : List Char)
    (hstart : isVarStart c = true) (hall : ∀ x ∈ c :: cs, isVarChar x = true) :
    envsubstChars env (fuel + 1) ('$' :: c :: cs)
      = ((envValue env (String.mk (c :: cs))).getD "").toList := by
  have hne : c ≠ '{' := by
    intro hceq
    subst hceq
    simp [isVarStart] at hstart
  have hspan : List.span isVarChar (c :: cs) = (c :: cs, []) := span_eq_all _ hall
  rw [envsubstChars]
  rw [if_pos rfl, if_neg hne, if_pos hstart]
  rw [hspan]
  have hnil : envsubstChars env fuel [] = [] := by
    cases fuel <;> rw [envsubstChars]
  simp only [hnil, List.append_nil]

/-- C4 counterexample: with `IMAGE` missing from both the inherited
environment and the `ParameterSet`, rendering does not abort: `envsubst`
replaces the marker with the empty string and the document is still
handed to the cluster apply call. -/
theorem claim_C4_counterexample :
    envValue ([] ++ []) "IMAGE" = none
    ∧ normalizeTemplate "image: ${IMAGE:-nginx}\n" = "image: $IMAGE\n"
    ∧ (applyJobConfig [] [] (normalizeTemplate "image: ${IMAGE:-nginx}\n")
        (fun _ => .ok ())).appliedDocs = ["image: \n"]
    ∧ (applyJobConfig [] [] (normalizeTemplate "image: ${IMAGE:-nginx}\n")
        (fun _ => .ok ())).result = .ok () :=
  ⟨rfl, rfl, rfl, rfl⟩

/-- C4 (amended): `applyJobConfig` always hands exactly one document to
the cluster apply call — the `envsubst` output under `os.Environ()`
extended (and overridden) by the `ParameterSet`; a NAME marker resolves
to the `ParameterSet`/environment value when bound and to the empty
string when unbound — it is never a hard error and never left literal. -/
theorem claim_C4_applyJobConfig (osEnviron envVars : List (String × String))
    (tpl : String) (kubectlApply : String → Except String Unit)
    (c : Char) (cs : List Char)
    (hstart : isVarStart c = true) (hall : ∀ x ∈ c :: cs, isVarChar x = true) :
    (applyJobConfig osEnviron envVars tpl kubectlApply).appliedDocs
      = [envsubstRun (osEnviron ++ envVars) tpl]
    ∧ (envValue (osEnviron ++ envVars) (String.mk (c :: cs)) = none →
        envsubstRun (osEnviron ++ envVars) (String.mk ('$' :: c :: cs)) = "")
    ∧ (∀ v, envValue (osEnviron ++ envVars) (String.mk (c :: cs)) = some v →
        envsubstRun (osEnviron ++ envVars) (String.mk ('$' :: c :: cs)) = v) := by
  refine ⟨?_, ?_, ?_⟩
  · simp only [applyJobConfig]
    split <;> rfl
  · intro hnone
    simp only [envsubstRun]
    rw [show (String.mk ('$' :: c :: cs)).toList = '$' :: c :: cs from rfl]
    rw [show ('$' :: c :: cs).length = (c :: cs).length + 1 from rfl]
    rw [envsubstChars_dollar_name _ _ _ _ hstart hall, hnone]
    rfl
  · intro v hv
    simp only [envsubstRun]
    rw [show (String.mk ('$' :: c :: cs)).toList = '$' :: c :: cs from rfl]
    rw [show ('$' :: c :: cs).length = (c :: cs).length + 1 from rfl]
    rw [envsubstChars_dollar_name _ _ _ _ hstart hall, hv]
    simp [Option.getD]

/-- C4 witness: a bound marker renders to the `ParameterSet` value, an
unbound one to the empty string, and the apply call always receives the
rendered document. -/
theorem claim_C4_witness :
    (applyJobConfig [("USER", "alice")] [("IMAGE", "alpine")] "image: $IMAGE\n"
        (fun _ => .ok ())).appliedDocs
      = [envsubstRun ([("USER", "alice")] ++ [("IMAGE", "alpine")]) "image: $IMAGE\n"]
    ∧ envsubstRun ([("USER", "alice")] ++ [("IMAGE", "alpine")])
        (String.mk ('$' :: 'I' :: "MAGE".toList)) = "alpine"
    ∧ envsubstRun ([] ++ []) (String.mk ('$' :: 'G' :: "PU".toList)) = "" :=
  have h1 := claim_C4_applyJobConfig [("USER", "alice")] [("IMAGE", "alpine")]
    "image: $IMAGE\n" (fun _ => .ok ()) 'I' "MAGE".toList (by decide) (by decide)
  have h2 := claim_C4_applyJobConfig [] [] "" (fun _ => .ok ()) 'G' "PU".toList
    (by decide) (by decide)
  ⟨h1.1, h1.2.2 "alpine" (by decide), h2.2.1 (by decide)⟩

/-- `foldIns` over an append splits into two folds. -/
theorem foldIns_append : ∀ (l1 l2 acc : List (String × String)),
    foldIns acc (l1 ++ l2) = foldIns (foldIns acc l1) l2
  | [], _, _ => rfl
  | nd :: rest, l2, acc => by
    rw [List.cons_append, foldIns, foldIns, foldIns_append rest l2]

mutual
/-- The traversal equals the insert-if-absent fold over the flattened
first-match list (values). -/
theorem searchEnvVars_eq : ∀ (v : YamlVal) (acc : List (String × String)),
    searchEnvVars v acc = foldIns acc (firstMatches v)
  | .str s, acc => by
    simp only [searchEnvVars, firstMatches]
    cases firstPlaceholder s.toList with
    | none => rfl
    | some nd => rfl
  | .scalar, _ => rfl
  | .map es, acc => by
    simp only [searchEnvVars, firstMatches]
    exact searchEnvVarsMap_eq es acc
  | .seq xs, acc => by
    simp only [searchEnvVars, firstMatches]
    exact searchEnvVarsSeq_eq xs acc
/-- The traversal equals the insert-if-absent fold (mappings). -/
theorem searchEnvVarsMap_eq : ∀ (es : YamlMap) (acc : List (String × String)),
    searchEnvVarsMap es acc = foldIns acc (firstMatchesMap es)
  | .nil, _ => rfl
  | .cons k v rest, acc => by
    simp only [searchEnvVarsMap, firstMatchesMap]
    rw [searchEnvVarsMap_eq rest (searchEnvVars v acc), searchEnvVars_eq v acc,
      foldIns_append]
/-- The traversal equals the insert-if-absent fold (sequences). -/
theorem searchEnvVarsSeq_eq : ∀ (xs : YamlSeq) (acc : List (String × String)),
    searchEnvVarsSeq xs acc = foldIns acc (firstMatchesSeq xs)
  | .nil, _ => rfl
  | .cons v rest, acc => by
    simp only [searchEnvVarsSeq, firstMatchesSeq]
    rw [searchEnvVarsSeq_eq rest (searchEnvVars v acc), searchEnvVars_eq v acc,
      foldIns_append]
end

/-- Looking a name up in the folded set gives the first binding of the
accumulator and then the first binding of the list (first-seen-wins). -/
theorem foldIns_find (n : String) : ∀ (l acc : List (String × String)),
    (foldIns acc l).find? (fun p => p.1 == n)
      = (acc.find? (fun p => p.1 == n)).or (l.find? (fun p => p.1 == n))
  | [], acc => by simp [foldIns]
  | (k, d) :: rest, acc => by
    rw [foldIns]
    by_cases hk : k = n
    · subst hk
      by_cases ha : acc.any (fun p => p.1 == k)
      · rw [if_pos ha, foldIns_find k rest acc]
        obtain ⟨p, hp, hpk⟩ := List.any_eq_true.mp ha
        have hsome : (acc.find? (fun p => p.1 == k)).isSome := by
          rw [List.find?_isSome]
          exact ⟨p, hp, hpk⟩
        obtain ⟨q, hq⟩ := Option.isSome_iff_exists.mp hsome
        rw [hq]
        rfl
      · rw [if_neg ha, foldIns_find k rest (acc ++ [(k, d)])]
        have hnone : acc.find? (fun p => p.1 == k) = none := by
          rw [List.find?_eq_none]
          intro p hp hpk
          exact ha (List.any_eq_true.mpr ⟨p, hp, hpk⟩)
        rw [List.find?_append, hnone]
        simp [List.find?_cons]
    · have hkb : ((k, d).1 == n) = false := by simp [hk]
      by_cases ha : acc.any (fun p => p.1 == (k, d).1)
      · rw [if_pos ha, foldIns_find n rest acc, List.find?_cons, hkb]
      · rw [if_neg ha, foldIns_find n rest (acc ++ [(k, d)]), List.find?_append]
        simp only [List.find?_cons, hkb, List.find?_nil, Option.or_none]

/-- The span loop in terms of `takeWhile`/`dropWhile`. -/
theorem span_loop_eq {p : Char → Bool} : ∀ (l rs : List Char),
    List.span.loop p l rs = (rs.reverse ++ l.takeWhile p, l.dropWhile p)
  | [], rs => by simp [List.span.loop]
  | c :: cs, rs => by
    cases hc : p c
    · simp [List.span.loop, hc, List.takeWhile_cons, List.dropWhile_cons]
    · simp only [List.span.loop, hc]
      rw [span_loop_eq cs (c :: rs)]
      simp [List.takeWhile_cons, hc, List.dropWhile_cons]

/-- `List.span` in terms of `takeWhile`/`dropWhile`. -/
theorem span_eq (p : Char → Bool) (l : List Char) :
    List.span p l = (l.takeWhile p, l.dropWhile p) := by
  rw [List.span, span_loop_eq]
  simp

/-- A string with no `:` anywhere has no recognized placeholder at its
head (the `:-` delimiter cannot occur). -/
theorem placeholderAt_no_colon (cs : List Char) (h : ∀ c ∈ cs, c ≠ ':') :
    placeholderAt cs = none := by
  cases cs with
  | nil => rfl
  | cons c1 t1 =>
    cases t1 with
    | nil => rfl
    | cons c2 rest =>
      rw [placeholderAt]
      by_cases h12 : c1 = '$' ∧ c2 = '{'
      · rw [if_pos h12, span_eq]
        have hrest : ∀ c ∈ rest, c ≠ ':' := by
          intro c hc
          exact h c (by simp [hc])
        by_cases hname : (rest.takeWhile (fun c => !(c = ':' || c = '}'))).isEmpty
        · simp only [hname]
          rfl
        · simp only [hname, Bool.false_eq_true, if_false]
          cases hd : rest.dropWhile (fun c => !(c = ':' || c = '}')) with
          | nil => rfl
          | cons d1 t =>
            have hd1 : d1 ≠ ':' := by
              have hmem : d1 ∈ List.dropWhile (fun c => !(c = ':' || c = '}')) rest := by
                rw [hd]
                exact List.mem_cons_self d1 t
              exact hrest d1 (List.Sublist.mem hmem (List.dropWhile_sublist _))
            cases t with
            | nil => rfl
            | cons d2 t2 =>
              have hno : ¬ (d1 = ':' ∧ d2 = '-') := fun hc => hd1 hc.1
              simp only [hno, if_false]
      · rw [if_neg h12]

/-- A string with no `:` anywhere contains no recognized placeholder. -/
theorem firstPlaceholder_no_colon : ∀ (cs : List Char), (∀ c ∈ cs, c ≠ ':') →
    firstPlaceholder cs = none
  | [], _ => rfl
  | c :: cs, h => by
    simp only [firstPlaceholder]
    rw [placeholderAt_no_colon _ h]
    exact firstPlaceholder_no_colon cs (fun x hx => h x (List.mem_cons_of_mem c hx))

/-- C2 counterexample: the scalar `${A:-1} ${B:-2}` contains the
placeholder `B ↦ 2`, but extraction records only the first placeholder of
each scalar, so `B` is absent from the extracted `ParameterSet`. -/
theorem claim_C2_counterexample :
    allPlaceholders ("${A:-1} ${B:-2}".toList.length) "${A:-1} ${B:-2}".toList
      = [("A", "1"), ("B", "2")]
    ∧ extractEnvVars c2Doc = [("A", "1")]
    ∧ (extractEnvVars c2Doc).find? (fun p => p.1 == "B") = none :=
  ⟨by decide, rfl, rfl⟩

/-- C2 (amended): extraction records, for each scalar string field, only
its first placeholder; each distinct NAME among those maps to the DEFAULT
of its first occurrence in traversal order (first-seen-wins); the
IMAGE/GPU_PRODUCT scenario extracts as specified; and a placeholder
lacking the `:-` delimiter (no `:` at all) is not recognized. -/
theorem claim_C2_extractEnvVars (root : YamlMap) (n : String) (s0 : String)
    (hs : ∀ c ∈ s0.toList, c ≠ ':') :
    (extractEnvVars root).find? (fun p => p.1 == n)
      = (firstMatches (.map root)).find? (fun p => p.1 == n)
    ∧ extractEnvVars c2Scenario
      = [("IMAGE", "nginx"), ("GPU_PRODUCT", "NVIDIA-A100-SXM4-80GB")]
    ∧ firstPlaceholder s0.toList = none := by
  refine ⟨?_, rfl, firstPlaceholder_no_colon _ hs⟩
  rw [extractEnvVars, searchEnvVars_eq, foldIns_find]
  simp

/-- C2 witness: the scenario template instantiates the characterization,
and `${FOO}` is not recognized. -/
theorem claim_C2_witness :
    (extractEnvVars c2Scenario).find? (fun p => p.1 == "IMAGE")
      = (firstMatches (.map c2Scenario)).find? (fun p => p.1 == "IMAGE")
    ∧ extractEnvVars c2Scenario
      = [("IMAGE", "nginx"), ("GPU_PRODUCT", "NVIDIA-A100-SXM4-80GB")]
    ∧ firstPlaceholder "${FOO}".toList = none :=
  have h := claim_C2_extractEnvVars c2Scenario "IMAGE" "${FOO}" (by decide)
  ⟨h.1, h.2.1, h.2.2⟩

/-- `digitVal` inverts `digitChar` below 10. -/
theorem digitVal_digitChar (d : Nat) (h : d < 10) : digitVal (digitChar d) = d := by
  interval_cases d <;> decide

/-- `digitChar` produces digit characters below 10. -/
theorem isDigit_digitChar (d : Nat) (h : d < 10) : (digitChar d).isDigit = true := by
  interval_cases d <;> decide

/-- Every character of `digitsAux` is a digit. -/
theorem digitsAux_all : ∀ (fuel n : Nat), ∀ c ∈ digitsAux fuel n, c.isDigit = true
  | 0, _, _, hc => by simp [digitsAux] at hc
  | fuel+1, n, c, hc => by
    rw [digitsAux] at hc
    by_cases h10 : n < 10
    · rw [if_pos h10] at hc
      simp only [List.mem_singleton] at hc
      subst hc
      exact isDigit_digitChar n h10
    · rw [if_neg h10] at hc
      rcases List.mem_append.mp hc with h | h
      · exact digitsAux_all fuel (n / 10) c h
      · simp only [List.mem_singleton] at h
        subst h
        exact isDigit_digitChar _ (Nat.mod_lt n (by omega))

/-- `digitsAux` with positive fuel is nonempty. -/
theorem digitsAux_ne_nil (fuel n : Nat) : digitsAux (fuel+1) n ≠ [] := by
  rw [digitsAux]
  split
  · simp
  · simp

/-- The value of the digits of `n` is `n` (when the fuel covers `n`). -/
theorem digitsToNat_digitsAux : ∀ (fuel n : Nat), n < 10 ^ fuel →
    digitsToNat (digitsAux fuel n) = n
  | 0, n, h => by
    simp only [Nat.pow_zero, Nat.lt_one_iff] at h
    subst h
    rfl
  | fuel+1, n, h => by
    rw [digitsAux]
    by_cases h10 : n < 10
    · rw [if_pos h10]
      simp only [digitsToNat, List.foldl_cons, List.foldl_nil]
      rw [digitVal_digitChar n h10]
      omega
    · rw [if_neg h10]
      have hdiv : n / 10 < 10 ^ fuel := by
        rw [Nat.div_lt_iff_lt_mul (by omega)]
        calc n < 10 ^ (fuel+1) := h
        _ = 10 ^ fuel * 10 := by ring
      simp only [digitsToNat, List.foldl_append, List.foldl_cons, List.foldl_nil]
      have hpre := digitsToNat_digitsAux fuel (n / 10) hdiv
      simp only [digitsToNat] at hpre
      rw [hpre, digitVal_digitChar _ (Nat.mod_lt n (by omega))]
      omega

/-- `spanDigits` splits a digit run off a non-digit boundary. -/
theorem spanDigits_append : ∀ (ds rest : List Char),
    (∀ c ∈ ds, c.isDigit = true) → (∀ c, rest.head? = some c → c.isDigit = false) →
    spanDigits (ds ++ rest) = (ds, rest)
  | [], rest, _, hrest => by
    cases rest with
    | nil => rfl
    | cons c t =>
      have hc : c.isDigit = false := hrest c rfl
      simp [spanDigits, hc]
  | c :: ds, rest, hds, hrest => by
    have hc : c.isDigit = true := hds c (List.mem_cons_self c ds)
    have ih := spanDigits_append ds rest (fun x hx => hds x (List.mem_cons_of_mem c hx)) hrest
    simp [spanDigits, hc, ih]

/-- One `%d` conversion on a decimal rendering followed by a non-digit
boundary. -/
theorem scanInt_digits (n : Nat) (rest : List Char)
    (hrest : ∀ c, rest.head? = some c → c.isDigit = false) :
    scanInt (digitsAux (n+1) n ++ rest) = some ((n : Int), rest) := by
  cases hd : digitsAux (n+1) n with
  | nil => exact absurd hd (digitsAux_ne_nil _ _)
  | cons c ds =>
    have hcdig : c.isDigit = true := by
      refine digitsAux_all (n+1) n c ?_
      rw [hd]
      exact List.mem_cons_self c ds
    have hcm : c ≠ '-' := by
      intro hx
      subst hx
      exact absurd hcdig (by decide)
    have hcp : c ≠ '+' := by
      intro hx
      subst hx
      exact absurd hcdig (by decide)
    have hspan : spanDigits (digitsAux (n+1) n ++ rest) = (digitsAux (n+1) n, rest) :=
      spanDigits_append _ _ (digitsAux_all (n+1) n) hrest
    simp only [scanInt, hd, List.cons_append]
    rw [if_neg hcm, if_neg hcp]
    rw [← List.cons_append, ← hd, hspan, hd]
    simp only []
    have hlt : n < 10 ^ (n+1) := by
      calc n < 10 ^ n := Nat.lt_pow_self (by omega) n
      _ ≤ 10 ^ (n+1) := Nat.pow_le_pow_right (by omega) (by omega)
    rw [← hd, digitsToNat_digitsAux (n+1) n hlt]
    rw [one_mul]

/-- A character of a single-character needle occurring in the haystack
makes `strings.Contains` true. -/
theorem listContainsSub_of_mem : ∀ (l : List Char) (c : Char), c ∈ l →
    listContainsSub l [c] = true
  | x :: t, c, hm => by
    rw [listContainsSub]
    rcases List.mem_cons.mp hm with h | h
    · subst h
      simp [listHasPrefix]
    · rw [listContainsSub_of_mem t c h]
      simp

/-- A single character absent from the haystack makes `strings.Contains`
false. -/
theorem listContainsSub_of_not_mem : ∀ (l : List Char) (c : Char), (∀ x ∈ l, x ≠ c) →
    listContainsSub l [c] = false
  | [], _, _ => rfl
  | x :: t, c, h => by
    rw [listContainsSub]
    have hx : (c == x) = false := by
      have := h x (List.mem_cons_self x t)
      simp [BEq.beq]
      exact fun hc => (this hc.symm).elim
    rw [listContainsSub_of_not_mem t c (fun y hy => h y (List.mem_cons_of_mem x hy))]
    simp [listHasPrefix, hx]

/-- Gluing `String.mk` appends. -/
theorem mk_append_mk (l1 l2 : List Char) :
    String.mk l1 ++ String.mk l2 = String.mk (l1 ++ l2) := rfl

/-- `%dd%dh%dm` scanning of a rendered day/hour/minute string. -/
theorem sscanfDHM_render (d h mm : Nat) :
    sscanfDHM (digitsAux (d+1) d ++ 'd' ::
        (digitsAux (h+1) h ++ 'h' :: (digitsAux (mm+1) mm ++ ['m'])))
      = ((d : Int), (h : Int), (mm : Int)) := by
  have h1 := scanInt_digits d
    ('d' :: (digitsAux (h+1) h ++ 'h' :: (digitsAux (mm+1) mm ++ ['m'])))
    (by intro c hc; simp only [List.head?_cons, Option.some.injEq] at hc; subst hc; decide)
  have h2 := scanInt_digits h ('h' :: (digitsAux (mm+1) mm ++ ['m']))
    (by intro c hc; simp only [List.head?_cons, Option.some.injEq] at hc; subst hc; decide)
  have h3 := scanInt_digits mm ['m']
    (by intro c hc; simp only [List.head?_cons, Option.some.injEq] at hc; subst hc; decide)
  simp only [sscanfDHM, h1, h2, h3]

/-- `%dh%dm` scanning of a rendered hour/minute string. -/
theorem sscanfHM_render (h mm : Nat) :
    sscanfHM (digitsAux (h+1) h ++ 'h' :: (digitsAux (mm+1) mm ++ ['m']))
      = ((h : Int), (mm : Int)) := by
  have h2 := scanInt_digits h ('h' :: (digitsAux (mm+1) mm ++ ['m']))
    (by intro c hc; simp only [List.head?_cons, Option.some.injEq] at hc; subst hc; decide)
  have h3 := scanInt_digits mm ['m']
    (by intro c hc; simp only [List.head?_cons, Option.some.injEq] at hc; subst hc; decide)
  simp only [sscanfHM, h2, h3]

/-- `%dm` scanning of a rendered minute string. -/
theorem sscanfM_render (mm : Nat) :
    sscanfM (digitsAux (mm+1) mm ++ ['m']) = (mm : Int) := by
  have h3 := scanInt_digits mm ['m']
    (by intro c hc; simp only [List.head?_cons, Option.some.injEq] at hc; subst hc; decide)
  simp only [sscanfM, h3]

/-- `toList` undoes `String.mk`. -/
theorem mk_toList (l : List Char) : (String.mk l).toList = l := rfl

/-- String-literal glue. -/
theorem str_d : ("d" : String) = String.mk ['d'] := rfl

/-- String-literal glue. -/
theorem str_h : ("h" : String) = String.mk ['h'] := rfl

/-- String-literal glue. -/
theorem str_m : ("m" : String) = String.mk ['m'] := rfl

/-- The sentinel is the one-character non-breaking hyphen. -/
theorem sentinel_toList : ("‑" : String).toList = ['‑'] := rfl

/-- A digit character differs from any non-digit character. -/
theorem digit_ne (c x : Char) (hc : c.isDigit = false) (hx : x.isDigit = true) :
    x ≠ c := by
  intro h
  subst h
  simp [hx] at hc

/-- `parseAge` of a rendered `{d}d{h}h{m}m` string. -/
theorem parseAge_mk_dhm (d h mm : Nat) :
    parseAge (String.mk (digitsAux (d+1) d ++ 'd' ::
        (digitsAux (h+1) h ++ 'h' :: (digitsAux (mm+1) mm ++ ['m']))))
      = (d : Int) * 24 * 60 + (h : Int) * 60 + (mm : Int) := by
  have hm : 'd' ∈ (digitsAux (d+1) d ++ 'd' ::
      (digitsAux (h+1) h ++ 'h' :: (digitsAux (mm+1) mm ++ ['m']))) := by simp
  have hcd : strContains (String.mk (digitsAux (d+1) d ++ 'd' ::
      (digitsAux (h+1) h ++ 'h' :: (digitsAux (mm+1) mm ++ ['m'])))) "d" = true := by
    rw [strContains]
    exact listContainsSub_of_mem _ _ hm
  simp only [parseAge, mk_toList]
  rw [if_pos hcd, sscanfDHM_render]

/-- `parseAge` of a rendered `{h}h{m}m` string. -/
theorem parseAge_mk_hm (h mm : Nat) :
    parseAge (String.mk (digitsAux (h+1) h ++ 'h' :: (digitsAux (mm+1) mm ++ ['m'])))
      = (h : Int) * 60 + (mm : Int) := by
  have hnd : ∀ x ∈ (digitsAux (h+1) h ++ 'h' :: (digitsAux (mm+1) mm ++ ['m'])),
      x ≠ 'd' := by
    intro x hx
    rcases List.mem_append.mp hx with h1 | h1
    · exact digit_ne 'd' x (by decide) (digitsAux_all _ _ _ h1)
    · rcases List.mem_cons.mp h1 with h1 | h1
      · subst h1; decide
      · rcases List.mem_append.mp h1 with h1 | h1
        · exact digit_ne 'd' x (by decide) (digitsAux_all _ _ _ h1)
        · have hxm : x = 'm' := by simpa using h1
          subst hxm; decide
  have hcd : strContains (String.mk (digitsAux (h+1) h ++ 'h' ::
      (digitsAux (mm+1) mm ++ ['m']))) "d" = false := by
    rw [strContains]
    exact listContainsSub_of_not_mem _ _ hnd
  have hch : strContains (String.mk (digitsAux (h+1) h ++ 'h' ::
      (digitsAux (mm+1) mm ++ ['m']))) "h" = true := by
    rw [strContains]
    exact listContainsSub_of_mem _ _ (by simp)
  simp only [parseAge, mk_toList]
  rw [hcd]
  simp only [Bool.false_eq_true, if_false]
  rw [if_pos hch, sscanfHM_render]

/-- `parseAge` of a rendered `{m}m` string. -/
theorem parseAge_mk_m (mm : Nat) :
    parseAge (String.mk (digitsAux (mm+1) mm ++ ['m'])) = (mm : Int) := by
  have hnd : ∀ x ∈ (digitsAux (mm+1) mm ++ ['m']), x ≠ 'd' := by
    intro x hx
    rcases List.mem_append.mp hx with h1 | h1
    · exact digit_ne 'd' x (by decide) (digitsAux_all _ _ _ h1)
    · have hxm : x = 'm' := by simpa using h1
      subst hxm; decide
  have hnh : ∀ x ∈ (digitsAux (mm+1) mm ++ ['m']), x ≠ 'h' := by
    intro x hx
    rcases List.mem_append.mp hx with h1 | h1
    · exact digit_ne 'h' x (by decide) (digitsAux_all _ _ _ h1)
    · have hxm : x = 'm' := by simpa using h1
      subst hxm; decide
  have hcd : strContains (String.mk (digitsAux (mm+1) mm ++ ['m'])) "d" = false := by
    rw [strContains]
    exact listContainsSub_of_not_mem _ _ hnd
  have hch : strContains (String.mk (digitsAux (mm+1) mm ++ ['m'])) "h" = false := by
    rw [strContains]
    exact listContainsSub_of_not_mem _ _ hnh
  simp only [parseAge, mk_toList]
  rw [hcd, hch]
  simp only [Bool.false_eq_true, if_false]
  rw [sscanfM_render]

/-- `parseAge` inverts `renderDHM`, and the rendering never collides with
the no-start sentinel. -/
theorem parseAge_renderDHM (m : Nat) :
    parseAge (renderDHM m) = (m : Int) ∧ renderDHM m ≠ "‑" := by
  by_cases hd : m / 60 / 24 > 0
  · have hrender : renderDHM m = String.mk (digitsAux (m/60/24+1) (m/60/24) ++ 'd' ::
        (digitsAux (m/60%24+1) (m/60%24) ++ 'h' :: (digitsAux (m%60+1) (m%60) ++ ['m']))) := by
      simp only [renderDHM]
      rw [if_pos hd]
      simp only [natRepr, str_d, str_h, str_m, mk_append_mk, List.append_assoc,
        List.singleton_append, List.cons_append, List.nil_append]
    constructor
    · rw [hrender, parseAge_mk_dhm]
      omega
    · rw [hrender]
      intro hcontra
      have hmem : 'm' ∈ (String.mk (digitsAux (m/60/24+1) (m/60/24) ++ 'd' ::
          (digitsAux (m/60%24+1) (m/60%24) ++ 'h' ::
            (digitsAux (m%60+1) (m%60) ++ ['m'])))).toList := by
        rw [mk_toList]; simp
      rw [hcontra, sentinel_toList] at hmem
      simp at hmem
  · by_cases hh : m / 60 % 24 > 0
    · have hrender : renderDHM m = String.mk (digitsAux (m/60%24+1) (m/60%24) ++ 'h' ::
          (digitsAux (m%60+1) (m%60) ++ ['m'])) := by
        simp only [renderDHM]
        rw [if_neg hd, if_pos hh]
        simp only [natRepr, str_h, str_m, mk_append_mk, List.append_assoc,
          List.singleton_append, List.cons_append, List.nil_append]
      constructor
      · rw [hrender, parseAge_mk_hm]
        omega
      · rw [hrender]
        intro hcontra
        have hmem : 'm' ∈ (String.mk (digitsAux (m/60%24+1) (m/60%24) ++ 'h' ::
            (digitsAux (m%60+1) (m%60) ++ ['m']))).toList := by
          rw [mk_toList]; simp
        rw [hcontra, sentinel_toList] at hmem
        simp at hmem
    · have hrender : renderDHM m = String.mk (digitsAux (m%60+1) (m%60) ++ ['m']) := by
        simp only [renderDHM]
        rw [if_neg hd, if_neg hh]
        simp only [natRepr, str_m, mk_append_mk]
      constructor
      · rw [hrender, parseAge_mk_m]
        omega
      · rw [hrender]
        intro hcontra
        have hmem : 'm' ∈ (String.mk (digitsAux (m%60+1) (m%60) ++ ['m'])).toList := by
          rw [mk_toList]; simp
        rw [hcontra, sentinel_toList] at hmem
        simp at hmem

/-- Away from the sentinel, `parseDuration` and `parseAge` agree. -/
theorem parseDuration_eq_parseAge (s : String) (h : s ≠ "‑") :
    parseDuration s = parseAge s := by
  rw [parseDuration, if_neg h, parseAge]

/-- `parseDuration` inverts `renderDHM`. -/
theorem parseDuration_renderDHM (m : Nat) : parseDuration (renderDHM m) = (m : Int) := by
  rw [parseDuration_eq_parseAge _ (parseAge_renderDHM m).2]
  exact (parseAge_renderDHM m).1

/-- C8: for every recorded start time (and optional completion time) with
non-negative elapsed time, parsing the formatted duration string with the
comparator parser recovers the total elapsed whole minutes; the
no-start-time sentinel parses to zero; the analogous round trip holds for
`age`; a duration of 25 hours 3 minutes (1503 minutes) formats as
"1d1h3m" and one of 45 minutes formats as "45m". -/
theorem claim_C8_duration_roundtrip :
    (∀ s u now : Int, s ≤ u → parseDuration (fmtDuration (some s) (some u) now) = u - s) ∧
    (∀ s now : Int, s ≤ now → parseDuration (fmtDuration (some s) none now) = now - s) ∧
    (∀ e : Option Int, ∀ now : Int, parseDuration (fmtDuration none e now) = 0) ∧
    (∀ t now : Int, t ≤ now → parseAge (age t now) = now - t) ∧
    fmtDuration (some 0) (some 1503) 2000 = "1d1h3m" ∧
    fmtDuration (some 0) (some 45) 2000 = "45m" := by
  refine ⟨?_, ?_, ?_, ?_, ?_, ?_⟩
  · intro s u now h
    show parseDuration (renderDHM (u - s).toNat) = u - s
    rw [parseDuration_renderDHM]
    omega
  · intro s now h
    show parseDuration (renderDHM (now - s).toNat) = now - s
    rw [parseDuration_renderDHM]
    omega
  · intro e now
    cases e <;> rfl
  · intro t now h
    show parseAge (renderDHM (now - t).toNat) = now - t
    rw [(parseAge_renderDHM _).1]
    omega
  · rfl
  · rfl

/-- Concrete instance of the C8 round trip. -/
theorem claim_C8_witness :
    ((10 : Int) ≤ 1513 ∧
      parseDuration (fmtDuration (some 10) (some 1513) 2000) = 1513 - 10) ∧
    ((5 : Int) ≤ 1445 ∧
      parseDuration (fmtDuration (some 5) none 1445) = 1445 - 5) ∧
    parseDuration (fmtDuration none none 0) = 0 ∧
    ((100 : Int) ≤ 145 ∧ parseAge (age 100 145) = 145 - 100) :=
  ⟨⟨by decide, claim_C8_duration_roundtrip.1 10 1513 2000 (by decide)⟩,
   ⟨by decide, claim_C8_duration_roundtrip.2.1 5 1445 (by decide)⟩,
   claim_C8_duration_roundtrip.2.2.1 none 0,
   ⟨by decide, claim_C8_duration_roundtrip.2.2.2.1 100 145 (by decide)⟩⟩

/-- C3: refuted for the stability half: `sortJobs` (Go `sort.Slice`,
pdqsort, documented unstable) applied to 13 rows under the ascending
GPU-count mode reorders the two rows that compare equal — "b" precedes
"m" in the input, both have count 0 and neither compares below the other,
yet "m" precedes "b" in the output. -/
theorem claim_C3_counterexample :
    ((cexJobs.map (fun j => j.Name)).indexOf "b"
        < (cexJobs.map (fun j => j.Name)).indexOf "m")
    ∧ lessOfMode .gpuCountAsc (mkJob "b" 0) (mkJob "m" 0) = false
    ∧ lessOfMode .gpuCountAsc (mkJob "m" 0) (mkJob "b" 0) = false
    ∧ (((sortJobs cexJobs .gpuCountAsc).map (fun j => j.Name)).indexOf "m"
        < ((sortJobs cexJobs .gpuCountAsc).map (fun j => j.Name)).indexOf "b") := by
  set_option maxRecDepth 100000 in decide

namespace GoSort

variable {α : Type} [Inhabited α]

/-- On an array with no inversions the insertion-sort inner loop stops at
its first comparison. -/
theorem insertionSortInner_sorted (less : α → α → Bool) (arr : Array α)
    (hs : ∀ i j, i < j → j < arr.size → less (arr.get! j) (arr.get! i) = false) :
    ∀ (fuel j a : Nat), j < arr.size → insertionSortInner less fuel arr j a = arr
  | 0, _, _, _ => rfl
  | fuel+1, j, a, hj => by
    have hcond : (decide (j > a) && less (arr.get! j) (arr.get! (j-1))) = false := by
      by_cases hja : j > a
      · have hl := hs (j-1) j (by omega) hj
        rw [hl]
        simp
      · simp [hja]
    simp only [insertionSortInner, hcond, Bool.false_eq_true, if_false]

/-- On an array with no inversions the insertion-sort outer loop is the
identity. -/
theorem insertionSortOuter_sorted (less : α → α → Bool) (arr : Array α)
    (hs : ∀ i j, i < j → j < arr.size → less (arr.get! j) (arr.get! i) = false) :
    ∀ (fuel i a b : Nat), b ≤ arr.size → insertionSortOuter less fuel arr i a b = arr
  | 0, _, _, _, _ => rfl
  | fuel+1, i, a, b, hb => by
    simp only [insertionSortOuter]
    by_cases hib : i < b
    · rw [insertionSortInner_sorted less arr hs i i a (by omega), if_pos hib]
      exact insertionSortOuter_sorted less arr hs fuel (i+1) a b hb
    · rw [if_neg hib]

/-- `insertionSort_func` is the identity on an array with no inversions. -/
theorem insertionSort_sorted (less : α → α → Bool) (arr : Array α)
    (hs : ∀ i j, i < j → j < arr.size → less (arr.get! j) (arr.get! i) = false)
    (a b : Nat) (hb : b ≤ arr.size) : insertionSort less arr a b = arr :=
  insertionSortOuter_sorted less arr hs (b - a) (a+1) a b hb

/-- On an array with no inversions the `partialInsertionSort` scan runs to
the right bound. -/
theorem pisScan_sorted (less : α → α → Bool) (arr : Array α)
    (hs : ∀ i j, i < j → j < arr.size → less (arr.get! j) (arr.get! i) = false)
    (b : Nat) (hb : b ≤ arr.size) :
    ∀ (fuel i : Nat), 1 ≤ i → i ≤ b → b - i ≤ fuel → pisScan less arr b fuel i = b
  | 0, i, _, h2, h3 => by
    have hib : i = b := by omega
    simp [pisScan, hib]
  | fuel+1, i, h1, h2, h3 => by
    simp only [pisScan]
    by_cases hib : i < b
    · have hl := hs (i-1) i (by omega) (by omega)
      have hcond : (decide (i < b) && !(less (arr.get! i) (arr.get! (i-1)))) = true := by
        rw [hl]
        simp [hib]
      rw [hcond, if_pos rfl]
      exact pisScan_sorted less arr hs b hb fuel (i+1) (by omega) (by omega) (by omega)
    · have hib2 : i = b := by omega
      simp [hib, hib2]

/-- `partialInsertionSort_func` on an array with no inversions reports
success without touching the array. -/
theorem pisLoop_sorted_step (less : α → α → Bool) (arr : Array α)
    (hs : ∀ i j, i < j → j < arr.size → less (arr.get! j) (arr.get! i) = false)
    (a b : Nat) (hb : b ≤ arr.size) (hab : a < b) (steps : Nat) :
    pisLoop less a b (steps+1) arr (a+1) = (arr, true) := by
  simp only [pisLoop]
  rw [pisScan_sorted less arr hs b hb b (a+1) (by omega) (by omega) (by omega)]
  simp

theorem partialInsertionSort_sorted (less : α → α → Bool) (arr : Array α)
    (hs : ∀ i j, i < j → j < arr.size → less (arr.get! j) (arr.get! i) = false)
    (a b : Nat) (hb : b ≤ arr.size) (hab : a < b) :
    partialInsertionSort less arr a b = (arr, true) :=
  pisLoop_sorted_step less arr hs a b hb hab 4

/-- `order2_func` keeps an in-order index pair and counts no swap. -/
theorem order2_sorted (less : α → α → Bool) (arr : Array α)
    (hs : ∀ i j, i < j → j < arr.size → less (arr.get! j) (arr.get! i) = false)
    (a b s : Nat) (hab : a < b) (hb : b < arr.size) :
    order2 less arr a b s = (a, b, s) := by
  have hl := hs a b hab hb
  simp only [order2, hl, Bool.false_eq_true, if_false]

/-- `median_func` of three increasing indices of an array with no
inversions is the middle index, with no swap counted. -/
theorem median_sorted (less : α → α → Bool) (arr : Array α)
    (hs : ∀ i j, i < j → j < arr.size → less (arr.get! j) (arr.get! i) = false)
    (a b c s : Nat) (hab : a < b) (hbc : b < c) (hc : c < arr.size) :
    median less arr a b c s = (b, s) := by
  simp only [median, order2_sorted less arr hs a b s hab (by omega),
    order2_sorted less arr hs b c s hbc hc]

/-- `medianAdjacent_func` of an interior index of an array with no
inversions is that index. -/
theorem medianAdjacent_sorted (less : α → α → Bool) (arr : Array α)
    (hs : ∀ i j, i < j → j < arr.size → less (arr.get! j) (arr.get! i) = false)
    (a s : Nat) (ha : 1 ≤ a) (hsize : a + 1 < arr.size) :
    medianAdjacent less arr a s = (a, s) := by
  rw [medianAdjacent]
  exact median_sorted less arr hs (a-1) a (a+1) s (by omega) (by omega) hsize

/-- `choosePivot_func` on an array with no inversions picks the
mid-quartile index and reports the increasing hint, for ranges of at
least 8 elements. -/
theorem choosePivot_sorted (less : α → α → Bool) (arr : Array α)
    (hs : ∀ i j, i < j → j < arr.size → less (arr.get! j) (arr.get! i) = false)
    (a b : Nat) (hb : b ≤ arr.size) (hl : b - a ≥ 8) :
    choosePivot less arr a b = (a + (b-a)/4*2, Hint.increasing) := by
  have e4 := median_sorted less arr hs (a + (b-a)/4*1) (a + (b-a)/4*2) (a + (b-a)/4*3) 0
    (by omega) (by omega) (by omega)
  by_cases h50 : b - a ≥ 50
  · have e1 := medianAdjacent_sorted less arr hs (a + (b-a)/4*1) 0 (by omega) (by omega)
    have e2 := medianAdjacent_sorted less arr hs (a + (b-a)/4*2) 0 (by omega) (by omega)
    have e3 := medianAdjacent_sorted less arr hs (a + (b-a)/4*3) 0 (by omega) (by omega)
    simp only [choosePivot]
    rw [if_pos hl, if_pos h50]
    simp only [e1, e2, e3, e4, if_true]
  · simp only [choosePivot]
    rw [if_pos hl, if_neg h50]
    simp only [e4, if_true]

/-- One step of `pdqsort_func` on an array with no inversions returns the
array unchanged: small ranges finish in the no-op insertion sort, larger
ones take the increasing-hint path into the no-op partial insertion
sort. -/
theorem pdqsortLoop_sorted (less : α → α → Bool) (arr : Array α)
    (hs : ∀ i j, i < j → j < arr.size → less (arr.get! j) (arr.get! i) = false)
    (fuel limit : Nat) (hlim : limit ≠ 0) :
    pdqsortLoop less (fuel+1) arr 0 arr.size limit true true = arr := by
  by_cases h12 : arr.size - 0 ≤ 12
  · simp only [pdqsortLoop]
    rw [if_pos h12]
    exact insertionSort_sorted less arr hs 0 arr.size (le_refl _)
  · have ecp := choosePivot_sorted less arr hs 0 arr.size (le_refl _) (by omega)
    have epis := partialInsertionSort_sorted less arr hs 0 arr.size (le_refl _) (by omega)
    have hne : (Hint.increasing = Hint.decreasing) = False := by simp
    simp only [pdqsortLoop]
    rw [if_neg h12, if_neg hlim]
    simp only [Bool.not_true, Bool.false_eq_true, if_false, ecp, hne, Bool.true_and,
      decide_eq_true_eq, eq_self_iff_true, if_true, epis]

/-- `bits.Len` of a positive number is positive. -/
theorem bitsLen_ne_zero (n : Nat) (hn : n ≠ 0) : bitsLen n ≠ 0 := by
  cases n with
  | zero => exact absurd rfl hn
  | succ m =>
    rw [bitsLen]
    simp only [bitsLenAux]
    simp

end GoSort

/-- `Array.get!` after `List.toArray` is in-range list indexing. -/
theorem toArray_getBang {α : Type} [Inhabited α] (l : List α) (i : Nat) (hi : i < l.length) :
    l.toArray.get! i = l[i] := by
  simp [Array.get!, Array.getD, hi]

/-- `sort.Slice` is the identity on a list with no inversions (every
later element fails to compare below every earlier one). -/
theorem goSortSlice_sorted {α : Type} [Inhabited α] (less : α → α → Bool) (l : List α)
    (hp : List.Pairwise (fun x y => less y x = false) l) :
    GoSort.goSortSlice less l = l := by
  have hs : ∀ i j, i < j → j < l.toArray.size →
      less (l.toArray.get! j) (l.toArray.get! i) = false := by
    intro i j hij hj
    rw [Array.size_toArray] at hj
    rw [toArray_getBang l j hj, toArray_getBang l i (by omega)]
    exact (List.pairwise_iff_getElem.mp hp) i j (by omega) hj hij
  cases l with
  | nil => rfl
  | cons x t =>
    have hlim := GoSort.bitsLen_ne_zero (x::t).toArray.size (by simp)
    rcases Nat.exists_eq_add_of_lt (show 0 < ((x::t).length + 2) * ((x::t).length + 2) from
      Nat.mul_pos (by omega) (by omega)) with ⟨f, hf⟩
    simp only [GoSort.goSortSlice]
    rw [hf]
    simp only [Nat.zero_add]
    rw [GoSort.pdqsortLoop_sorted less (x::t).toArray hs f _ hlim]

/-- C3 (amended): for every list of workload records and each of the 8
sort modes, `sortJobs` permutes the records, and re-applying a mode to
input that is already sorted for it (no later record compares below an
earlier one) is a no-op; stability for equal records does not hold (see
the counterexample). -/
theorem claim_C3_sortJobs_amended (mode : SortMode) (jobs : List Job) :
    (sortJobs jobs mode).Perm jobs ∧
    (List.Pairwise (fun x y => lessOfMode mode y x = false) jobs →
      sortJobs jobs mode = jobs) :=
  ⟨sortJobs_perm jobs mode, fun hp => goSortSlice_sorted (lessOfMode mode) jobs hp⟩

/-- Concrete instance of the amended C3 statement. -/
theorem claim_C3_witness :
    List.Pairwise (fun x y => lessOfMode SortMode.gpuCountAsc y x = false)
      [mkJob "a" 0, mkJob "b" 1] ∧
    sortJobs [mkJob "a" 0, mkJob "b" 1] SortMode.gpuCountAsc = [mkJob "a" 0, mkJob "b" 1] :=
  ⟨by decide,
   (claim_C3_sortJobs_amended SortMode.gpuCountAsc [mkJob "a" 0, mkJob "b" 1]).2 (by decide)⟩
